import Mathlib

/-!
Shallow embedding of the ConnectionS graph library (src/connections).

Python dictionaries are modelled as insertion-ordered association lists
(`List (key × value)`); `d[k] = v` updates the first binding in place or
appends a fresh one at the end, `del d[k]` removes the binding, and lookup
returns the first binding — exactly CPython's observable dict behaviour on
the unique-key lists that real dicts are.  Python exceptions are modelled by
`Except PyErr` (an exception leaves no state behind in the functional
model), except for the bulk edge loader, which mutates the graph before it
can raise and therefore returns its partially mutated state next to an
optional error, mirroring the surviving Python object.
-/

namespace ConnectionS

/-- Node / edge identifiers.  `identifier.py` is not under src; identifiers
are opaque hashable tokens, modelled as strings. -/
abbrev Identifier := String

/-- A couple: the ordered pair of endpoint identifiers used as edge-store key. -/
abbrev Couple := Identifier × Identifier

/-- Python attribute values that the library ever stores or reads:
`None`, ints (degree), bools, strings, and sets of identifiers (neighbors). -/
inductive PyVal where
  | vnone : PyVal
  | vint (n : Int) : PyVal
  | vbool (b : Bool) : PyVal
  | vstr (s : String) : PyVal
  | vset (s : List Identifier) : PyVal
deriving DecidableEq, Repr

/-- An attribute record: a Python dict keyed by strings. -/
abbrev Attrs := List (String × PyVal)

/-- The multi-edge mapping of one couple: edge identifier → edge attributes. -/
abbrev Multiples := List (Identifier × Attrs)

/-- Python dict lookup `d.get(k)`: first binding of the key. -/
def dget? {α β : Type} [DecidableEq α] : List (α × β) → α → Option β
  | [], _ => none
  | (k, v) :: rest, key => if k = key then some v else dget? rest key

/-- Python dict assignment `d[k] = v`: update the first binding in place,
else append at the end. -/
def dset {α β : Type} [DecidableEq α] : List (α × β) → α → β → List (α × β)
  | [], key, val => [(key, val)]
  | (k, v) :: rest, key, val =>
      if k = key then (key, val) :: rest else (k, v) :: dset rest key val

/-- Python `del d[k]` on a present key: drop the first binding. -/
def ddel {α β : Type} [DecidableEq α] : List (α × β) → α → List (α × β)
  | [], _ => []
  | (k, v) :: rest, key => if k = key then rest else (k, v) :: ddel rest key

/-- The graph object: one node store and one edge store
(`Graph.__init__`, `nodes`/`edges` properties in graph.py). -/
structure GraphSt where
  nodes : List (Identifier × Attrs)
  edges : List (Couple × Multiples)
deriving DecidableEq, Repr

/-- The Python exceptions the modelled operations can raise. -/
inductive PyErr where
  | keyError : PyErr
  | typeError : PyErr
  | nodeAlreadyExists : PyErr
  | edgeAlreadyExists : PyErr
  | wrongLengthOfMultipleEdges : PyErr
  | duplicationInEdgeIdentifiers (node_l node_r : Identifier) : PyErr
deriving DecidableEq, Repr

/-- Source `Graph._couple_representation`: the per-variant canonicalization hook. -/
abbrev Rep := Couple → Couple

/-- Source `DirectedGraph._couple_representation`: identity (directed_graph.py). -/
def rep_directed : Rep := fun c => c

/-- Lexicographic comparison of character lists by character code (the
standard string total order, spelled out so it evaluates). -/
def chars_lt : List Char → List Char → Bool
  | [], [] => false
  | [], _ :: _ => true
  | _ :: _, [] => false
  | c1 :: r1, c2 :: r2 =>
      if c1.toNat < c2.toNat then true
      else if c2.toNat < c1.toNat then false
      else chars_lt r1 r2

/-- The deterministic total order on identifiers. -/
def ident_lt (a b : Identifier) : Bool := chars_lt a.data b.data

/-- Modelled from the spec: `undirected_graph.py` is not under src.  The
spec (§3, §4.4) requires an order-independent canonical form such that
`(a,b)` and `(b,a)` map to the same couple, via a deterministic total
order; modelled as sorting the pair lexicographically. -/
def rep_undirected : Rep := fun c => if ident_lt c.2 c.1 then (c.2, c.1) else (c.1, c.2)

/-- Source `Graph.add_node` with an explicit identifier (graph.py lines 219-259).
The `identifier=None` auto-generation path is not taken by any modelled
caller.  If the node exists and `replace` is false the call raises
`NodeAlreadyExistsException` before mutating anything; with `replace` true
the supplied attributes get the previous record's `degree` and `neighbors`
values written over them (`dict.get` yields `None` for a missing key) and
the record is then stored wholesale. -/
def add_node (g : GraphSt) (identifier : Identifier) (replace : Bool)
    (attributes : Attrs) : Except PyErr GraphSt :=
  match dget? g.nodes identifier with
  | some old =>
      if replace then
        let a1 := dset attributes "degree" ((dget? old "degree").getD .vnone)
        let a2 := dset a1 "neighbors" ((dget? old "neighbors").getD .vnone)
        .ok { g with nodes := dset g.nodes identifier a2 }
      else .error .nodeAlreadyExists
  | none => .ok { g with nodes := dset g.nodes identifier attributes }

/-- Source `Graph.clear_degree` (graph.py lines 479-482). -/
def clear_degree (g : GraphSt) : GraphSt :=
  { g with nodes := g.nodes.map fun kv => (kv.1, dset kv.2 "degree" (.vint 0)) }

/-- One `self.nodes[x]['degree'] += k` statement: `KeyError` when the node
is absent or has no `degree` key, `TypeError` when the value is not an int. -/
def bump_degree (nodes : List (Identifier × Attrs)) (x : Identifier) (k : Nat) :
    Except PyErr (List (Identifier × Attrs)) :=
  match dget? nodes x with
  | none => .error .keyError
  | some a =>
      match dget? a "degree" with
      | some (.vint d) => .ok (dset nodes x (dset a "degree" (.vint (d + k))))
      | some _ => .error .typeError
      | none => .error .keyError

/-- The loop body of `Graph.calc_degree` (graph.py lines 488-490): both
endpoints of every couple are incremented by that couple's multi-edge
count, sequentially (a loop couple hits the same record twice). -/
def calc_degree_loop : List (Identifier × Attrs) → List (Couple × Multiples) →
    Except PyErr (List (Identifier × Attrs))
  | nodes, [] => .ok nodes
  | nodes, ((node_l, node_r), multiples) :: rest =>
      match bump_degree nodes node_l multiples.length with
      | .error e => .error e
      | .ok n1 =>
          match bump_degree n1 node_r multiples.length with
          | .error e => .error e
          | .ok n2 => calc_degree_loop n2 rest

/-- Source `Graph.calc_degree` (graph.py lines 484-490). -/
def calc_degree (g : GraphSt) : Except PyErr GraphSt :=
  let g1 := clear_degree g
  match calc_degree_loop g1.nodes g1.edges with
  | .error e => .error e
  | .ok nodes => .ok { g1 with nodes := nodes }

/-- Source `Graph.clear_neighbors` (graph.py lines 492-495). -/
def clear_neighbors (g : GraphSt) : GraphSt :=
  { g with nodes := g.nodes.map fun kv => (kv.1, dset kv.2 "neighbors" (.vset [])) }

/-- Python `set.add`: no-op when the element is already present. -/
def pyset_add (s : List Identifier) (x : Identifier) : List Identifier :=
  if x ∈ s then s else s ++ [x]

/-- One `self.nodes[node_l]['neighbors'].add(node_r)` statement. -/
def add_neighbor (nodes : List (Identifier × Attrs)) (node_l node_r : Identifier) :
    Except PyErr (List (Identifier × Attrs)) :=
  match dget? nodes node_l with
  | none => .error .keyError
  | some a =>
      match dget? a "neighbors" with
      | some (.vset s) => .ok (dset nodes node_l (dset a "neighbors" (.vset (pyset_add s node_r))))
      | some _ => .error .typeError
      | none => .error .keyError

/-- The loop of `DirectedGraph.calc_neighbors` (directed_graph.py lines
59-64): only the left endpoint's neighbor set gains the right endpoint. -/
def calc_neighbors_loop : List (Identifier × Attrs) → List (Couple × Multiples) →
    Except PyErr (List (Identifier × Attrs))
  | nodes, [] => .ok nodes
  | nodes, ((node_l, node_r), _) :: rest =>
      match add_neighbor nodes node_l node_r with
      | .error e => .error e
      | .ok n1 => calc_neighbors_loop n1 rest

/-- Source `DirectedGraph.calc_neighbors`. -/
def calc_neighbors (g : GraphSt) : Except PyErr GraphSt :=
  let g1 := clear_neighbors g
  match calc_neighbors_loop g1.nodes g1.edges with
  | .error e => .error e
  | .ok nodes => .ok { g1 with nodes := nodes }

/-- The `calc_degree(); calc_neighbors()` recomputation pair that the
mutation methods run when `recalculate_calculated_attributes` is true. -/
def recalc (g : GraphSt) : Except PyErr GraphSt :=
  match calc_degree g with
  | .error e => .error e
  | .ok g1 => calc_neighbors g1

/-- Source `Graph.add_edge` with an explicit identifier (graph.py lines 303-374).
`self.edges.get(couple) or {}` yields the present multi-edge dict or a
fresh empty one; the `except NodeAlreadyExistsException: pass` guards are
the `.error` fallthroughs (with an identifier supplied, `add_node` can
raise nothing else). -/
def add_edge (rep : Rep) (g : GraphSt) (node_l node_r identifier : Identifier)
    (replace add_non_existent_incident_nodes recalculate_calculated_attributes : Bool)
    (attributes : Attrs) : Except PyErr GraphSt :=
  let couple := rep (node_l, node_r)
  let dup : Bool :=
    match dget? g.edges couple with
    | some m => (dget? m identifier).isSome
    | none => false
  if dup && !replace then .error .edgeAlreadyExists
  else
    let m := (dget? g.edges couple).getD []
    let g1 : GraphSt := { g with edges := dset g.edges couple (dset m identifier attributes) }
    let g2 : GraphSt :=
      if add_non_existent_incident_nodes then
        let ga := match add_node g1 node_l false [] with
          | .ok gx => gx
          | .error _ => g1
        match add_node ga node_r false [] with
        | .ok gx => gx
        | .error _ => ga
      else g1
    if recalculate_calculated_attributes then recalc g2 else .ok g2

/-- Source `Graph.del_edge` (graph.py lines 376-413): `identifier=None` deletes the
whole couple key, otherwise exactly that edge identifier inside the couple;
a missing key surfaces Python's `KeyError`. -/
def del_edge (rep : Rep) (g : GraphSt) (node_l node_r : Identifier)
    (identifier : Option Identifier) (recalculate_calculated_attributes : Bool) :
    Except PyErr GraphSt :=
  let couple := rep (node_l, node_r)
  let deleted : Except PyErr GraphSt :=
    match identifier with
    | none =>
        match dget? g.edges couple with
        | none => .error .keyError
        | some _ => .ok { g with edges := ddel g.edges couple }
    | some eid =>
        match dget? g.edges couple with
        | none => .error .keyError
        | some m =>
            match dget? m eid with
            | none => .error .keyError
            | some _ => .ok { g with edges := dset g.edges couple (ddel m eid) }
  match deleted with
  | .error e => .error e
  | .ok g1 =>
      if recalculate_calculated_attributes then recalc g1 else .ok g1

/-- The cascade of `Graph.del_node` (graph.py lines 279-283): delete every
incident couple wholesale, recomputation deferred. -/
def del_edges_list (rep : Rep) : GraphSt → List Couple → Except PyErr GraphSt
  | g, [] => .ok g
  | g, c :: rest =>
      match del_edge rep g c.1 c.2 none false with
      | .error e => .error e
      | .ok g1 => del_edges_list rep g1 rest

/-- Source `Graph.del_node` (graph.py lines 261-291): deletes every couple with the
identifier in either endpoint position, then the node record itself
(`KeyError` if absent), then optionally recomputes. -/
def del_node (rep : Rep) (g : GraphSt) (identifier : Identifier)
    (recalculate_calculated_attributes : Bool) : Except PyErr GraphSt :=
  let incident := (g.edges.filter fun cm =>
    cm.1.1 == identifier || cm.1.2 == identifier).map Prod.fst
  match del_edges_list rep g incident with
  | .error e => .error e
  | .ok g1 =>
      match dget? g1.nodes identifier with
      | none => .error .keyError
      | some _ =>
          let g2 : GraphSt := { g1 with nodes := ddel g1.nodes identifier }
          if recalculate_calculated_attributes then recalc g2 else .ok g2

/-- Source `Graph.clear_nodes` (graph.py lines 293-295): the nodes setter resets
the store to `{}` and validating an empty dict inserts nothing; the edge
store is untouched. -/
def clear_nodes (g : GraphSt) : GraphSt := { g with nodes := [] }

/-- Source `Graph.clear_edges` (graph.py lines 415-421): empty the edge store,
then `clear_degree` and `clear_neighbors`. -/
def clear_edges (g : GraphSt) : GraphSt :=
  clear_neighbors (clear_degree { g with edges := [] })

/-- Membership in `set(selected_nodes) & set(self.nodes)` (graph.py line 442). -/
def in_selected (g : GraphSt) (selected_nodes : List Identifier) (x : Identifier) : Bool :=
  selected_nodes.contains x && (dget? g.nodes x).isSome

/-- The `_condition` closure of `Graph.get_subgraph` (graph.py lines 447-450). -/
def subgraph_condition (g : GraphSt) (selected_nodes : List Identifier)
    (fullmatch : Bool) (node_l node_r : Identifier) : Bool :=
  if fullmatch then in_selected g selected_nodes node_l && in_selected g selected_nodes node_r
  else in_selected g selected_nodes node_l || in_selected g selected_nodes node_r

/-- One `subgraph.add_node(identifier=x, replace=False,
recalculate_calculated_attributes=False, **self.nodes[x])` call of
`get_subgraph` (graph.py lines 460-471).  `add_node` has no
`recalculate_calculated_attributes` parameter, so that keyword argument
lands in `**attributes`; `self.nodes[x]` raises `KeyError` when absent, and
a key collision between the explicit keywords and the expanded record is a
`TypeError` at the call site.  Only `NodeAlreadyExistsException` is caught. -/
def subgraph_add_node (g sub : GraphSt) (x : Identifier) : Except PyErr GraphSt :=
  match dget? g.nodes x with
  | none => .error .keyError
  | some a =>
      if (dget? a "recalculate_calculated_attributes").isSome
          || (dget? a "identifier").isSome || (dget? a "replace").isSome then
        .error .typeError
      else
        match add_node sub x false (("recalculate_calculated_attributes", PyVal.vbool false) :: a) with
        | .ok sub1 => .ok sub1
        | .error .nodeAlreadyExists => .ok sub
        | .error e => .error e

/-- The inner loop of `get_subgraph` over one retained couple's multiples
(graph.py lines 455-471). -/
def subgraph_inner (rep : Rep) (g : GraphSt) (node_l node_r : Identifier) :
    GraphSt → List (Identifier × Attrs) → Except PyErr GraphSt
  | sub, [] => .ok sub
  | sub, (eid, eattrs) :: rest =>
      match add_edge rep sub node_l node_r eid false false false eattrs with
      | .error e => .error e
      | .ok s1 =>
          match subgraph_add_node g s1 node_l with
          | .error e => .error e
          | .ok s2 =>
              match subgraph_add_node g s2 node_r with
              | .error e => .error e
              | .ok s3 => subgraph_inner rep g node_l node_r s3 rest

/-- The outer loop of `get_subgraph` over the edge store (graph.py lines 453-471). -/
def subgraph_outer (rep : Rep) (g : GraphSt) (selected_nodes : List Identifier)
    (fullmatch : Bool) : GraphSt → List (Couple × Multiples) → Except PyErr GraphSt
  | sub, [] => .ok sub
  | sub, ((node_l, node_r), multiples) :: rest =>
      if subgraph_condition g selected_nodes fullmatch node_l node_r then
        match subgraph_inner rep g node_l node_r sub multiples with
        | .error e => .error e
        | .ok s1 => subgraph_outer rep g selected_nodes fullmatch s1 rest
      else subgraph_outer rep g selected_nodes fullmatch sub rest

/-- Source `Graph.get_subgraph` (graph.py lines 423-477): start from the fresh
empty graph `self.__class__()` and recompute the calculated attributes of
the result. -/
def get_subgraph (rep : Rep) (g : GraphSt) (selected_nodes : List Identifier)
    (fullmatch : Bool) : Except PyErr GraphSt :=
  match subgraph_outer rep g selected_nodes fullmatch ⟨[], []⟩ g.edges with
  | .error e => .error e
  | .ok sub => recalc sub

/-- Source `Graph.find_loops` (graph.py lines 501-505), forced to a list. -/
def find_loops (g : GraphSt) : List Couple :=
  (g.edges.map Prod.fst).filter fun c => c.1 == c.2

/-- Source `Graph._is_pseudo`. -/
def is_pseudo (g : GraphSt) : Bool := !(find_loops g).isEmpty

/-- Source `Graph._is_multi`. -/
def is_multi (g : GraphSt) : Bool := g.edges.any fun cm => cm.2.length > 1

/-- Source `tuple(sorted((node_l, node_r)))` in `Graph._is_complete`. -/
def sorted_couple (c : Couple) : Couple := if ident_lt c.2 c.1 then (c.2, c.1) else (c.1, c.2)

/-- Source `Graph._is_complete` (graph.py lines 507-520): the number of distinct
non-loop couples (order disregarded) equals `n·(n−1)/2`; `n·(n−1)` is even,
so the comparison with the exact float quotient is the integer identity
`2 · count = n·(n−1)`. -/
def is_complete (g : GraphSt) : Bool :=
  let cs := (((g.edges.map Prod.fst).filter fun c => c.1 ≠ c.2).map sorted_couple).dedup
  2 * cs.length == g.nodes.length * (g.nodes.length - 1)

/-- The record `DirectedGraph.describe` returns (directed_graph.py lines
66-78); the `type` key is spelled `type_name`. -/
structure DescribeInfo where
  type_name : String
  number_of_nodes : Nat
  number_of_edges : Nat
  multi_graph : Bool
  pseudo_graph : Bool
  complete_graph : Bool
deriving DecidableEq, Repr

/-- Source `DirectedGraph.describe`: forces a recomputation (which can raise), then
reports counts and classification on the updated graph. -/
def describe (g : GraphSt) : Except PyErr (GraphSt × DescribeInfo) :=
  match recalc g with
  | .error e => .error e
  | .ok g1 => .ok (g1,
      { type_name := "Directed Graph"
        number_of_nodes := g1.nodes.length
        number_of_edges := g1.edges.length
        multi_graph := is_multi g1
        pseudo_graph := is_pseudo g1
        complete_graph := is_complete g1 })

/-- Modelled from the spec: `identifier.py` is not under src.
`generate_identifier()` returns a fresh process-unique token (§4.1); the
bulk loader's dead branch is the only modelled caller, fed from a counter. -/
def generate_identifier (n : Nat) : Identifier := "autogen-" ++ toString n

/-- The inner insertion loop of the `Dict` branch of
`Graph._edges_validation` (graph.py lines 189-197): each insertion that
raises `EdgeAlreadyExistsException` is rewrapped as
`DuplicationInEdgeIdentifiersException(node_l, node_r)`; the graph keeps the
edges inserted before the failure. -/
def load_multiples (rep : Rep) : GraphSt → Identifier → Identifier →
    List (Identifier × Attrs) → GraphSt × Option PyErr
  | g, _, _, [] => (g, none)
  | g, node_l, node_r, (eid, eattrs) :: rest =>
      match add_edge rep g node_l node_r eid false true false eattrs with
      | .error .edgeAlreadyExists => (g, some (.duplicationInEdgeIdentifiers node_l node_r))
      | .error e => (g, some e)
      | .ok g1 => load_multiples rep g1 node_l node_r rest

/-- The insertion loop of the `Dict` branch of `Graph._edges_validation`
(graph.py lines 182-197).  The `len(multiples) == 0` branch inserts one
edge with a generated identifier and no attributes; the counter feeds the
modelled `generate_identifier`. -/
def load_edges_loop (rep : Rep) : GraphSt → Nat → List (Couple × Multiples) →
    GraphSt × Option PyErr
  | g, _, [] => (g, none)
  | g, k, ((node_l, node_r), multiples) :: rest =>
      if multiples.length = 0 then
        match add_edge rep g node_l node_r (generate_identifier k) false true false [] with
        | .error e => (g, some e)
        | .ok g1 => load_edges_loop rep g1 (k + 1) rest
      else
        match load_multiples rep g node_l node_r multiples with
        | (g1, none) => load_edges_loop rep g1 k rest
        | (g1, some e) => (g1, some e)

/-- The `Dict` branch of `Graph._edges_validation` (graph.py lines
174-197).  The pre-scan checks run before any insertion; in this typed
embedding the type and shape checks other than `check_multiples_len`
(couple type and length, identifier and attribute types) cannot fail, and
`check_multiples_len` raises `WrongLengthOfMultipleEdgesException` when any
couple's multi-edge dict is empty, leaving the stores untouched. -/
def edges_validation_dict (rep : Rep) (g : GraphSt)
    (edges : List (Couple × Multiples)) : GraphSt × Option PyErr :=
  if edges.all fun cm => cm.2.length > 0 then load_edges_loop rep g 0 edges
  else (g, some .wrongLengthOfMultipleEdges)

/-! ## Derived notions used to state the claims -/

/-- The integer stored under a record's `degree` key, when it is an int. -/
def degval (a : Attrs) : Option Int :=
  match dget? a "degree" with
  | some (.vint d) => some d
  | _ => none

/-- The degree the node store records for `v`. -/
def degOf (nodes : List (Identifier × Attrs)) (v : Identifier) : Option Int :=
  (dget? nodes v).bind degval

/-- Sum over every couple of the edge list, counting `v` once per endpoint
position it occupies, of that couple's parallel-edge count (a loop couple
therefore contributes twice its count). -/
def degree_contrib (v : Identifier) : List (Couple × Multiples) → Int
  | [] => 0
  | ((node_l, node_r), multiples) :: rest =>
      (if node_l = v then (multiples.length : Int) else 0) +
      (if node_r = v then (multiples.length : Int) else 0) +
      degree_contrib v rest

/-- Out-degree of `v`: parallel-edge counts of couples with `v` on the left. -/
def out_degree (v : Identifier) : List (Couple × Multiples) → Int
  | [] => 0
  | ((node_l, _), multiples) :: rest =>
      (if node_l = v then (multiples.length : Int) else 0) + out_degree v rest

/-- In-degree of `v`: parallel-edge counts of couples with `v` on the right. -/
def in_degree (v : Identifier) : List (Couple × Multiples) → Int
  | [] => 0
  | ((_, node_r), multiples) :: rest =>
      (if node_r = v then (multiples.length : Int) else 0) + in_degree v rest

/-- Every endpoint of every couple in the edge store has a node record:
the precondition of the recomputation pass. -/
def endpoints_present (g : GraphSt) : Prop :=
  ∀ cm ∈ g.edges, (dget? g.nodes cm.1.1).isSome ∧ (dget? g.nodes cm.1.2).isSome

/-- Every node record holds an integer under its `degree` key. -/
def int_degrees (nodes : List (Identifier × Attrs)) : Prop :=
  ∀ v a, dget? nodes v = some a → ∃ d : Int, dget? a "degree" = some (.vint d)

/-- Every node record holds a set under its `neighbors` key. -/
def set_neighbors (nodes : List (Identifier × Attrs)) : Prop :=
  ∀ v a, dget? nodes v = some a → ∃ s, dget? a "neighbors" = some (.vset s)

/-! ## Dictionary lemmas -/

section DictLemmas

variable {α β : Type} [DecidableEq α]

theorem dget?_dset_self (d : List (α × β)) (k : α) (v : β) :
    dget? (dset d k v) k = some v := by
  induction d with
  | nil => simp [dset, dget?]
  | cons hd tl ih =>
      by_cases h : hd.1 = k
      · simp [dset, h, dget?]
      · simp [dset, h, dget?, ih]

theorem dget?_dset_ne (d : List (α × β)) (k k' : α) (v : β) (h : k' ≠ k) :
    dget? (dset d k v) k' = dget? d k' := by
  induction d with
  | nil => simp [dset, dget?, Ne.symm h]
  | cons hd tl ih =>
      obtain ⟨a, b⟩ := hd
      by_cases hk : a = k
      · subst hk
        simp [dset, dget?, Ne.symm h]
      · simp [dset, hk, dget?, ih]

theorem dget?_dset_isSome (d : List (α × β)) (k k' : α) (v : β) :
    (dget? (dset d k v) k').isSome ↔ k' = k ∨ (dget? d k').isSome := by
  by_cases h : k' = k
  · subst h; simp [dget?_dset_self]
  · simp [dget?_dset_ne d k k' v h, h]

theorem dset_of_absent (d : List (α × β)) (k : α) (v : β)
    (h : dget? d k = none) : dset d k v = d ++ [(k, v)] := by
  induction d with
  | nil => simp [dset]
  | cons hd tl ih =>
      by_cases hk : hd.1 = k
      · simp [dget?, hk] at h
      · simp [dget?, hk] at h
        simp [dset, hk, ih h]

theorem length_dset_present (d : List (α × β)) (k : α) (v : β)
    (h : (dget? d k).isSome) : (dset d k v).length = d.length := by
  induction d with
  | nil => simp [dget?] at h
  | cons hd tl ih =>
      by_cases hk : hd.1 = k
      · simp [dset, hk]
      · simp [dget?, hk] at h
        simp [dset, hk, ih h]

theorem dget?_ddel_ne (d : List (α × β)) (k k' : α) (h : k' ≠ k) :
    dget? (ddel d k) k' = dget? d k' := by
  induction d with
  | nil => simp [ddel]
  | cons hd tl ih =>
      obtain ⟨a, b⟩ := hd
      by_cases hk : a = k
      · subst hk
        simp [ddel, dget?, Ne.symm h]
      · simp [ddel, hk, dget?, ih]

theorem dget?_isSome_iff_mem (d : List (α × β)) (k : α) :
    (dget? d k).isSome ↔ k ∈ d.map Prod.fst := by
  induction d with
  | nil => simp [dget?]
  | cons hd tl ih =>
      by_cases hk : hd.1 = k
      · simp [dget?, hk]
      · simp [dget?, hk, ih, Ne.symm hk]

theorem dget?_ddel_self (d : List (α × β)) (k : α)
    (h : (d.map Prod.fst).Nodup) : dget? (ddel d k) k = none := by
  induction d with
  | nil => simp [ddel, dget?]
  | cons hd tl ih =>
      simp only [List.map_cons, List.nodup_cons] at h
      by_cases hk : hd.1 = k
      · subst hk
        simp only [ddel, if_pos rfl]
        rw [← Option.not_isSome_iff_eq_none, dget?_isSome_iff_mem]
        exact h.1
      · simp [ddel, hk, dget?, ih h.2]

theorem ddel_append_single (d : List (α × β)) (k : α) (v : β)
    (h : dget? d k = none) : ddel (d ++ [(k, v)]) k = d := by
  induction d with
  | nil => simp [ddel]
  | cons hd tl ih =>
      by_cases hk : hd.1 = k
      · simp [dget?, hk] at h
      · simp [dget?, hk] at h
        simp [ddel, hk, ih h]

theorem dget?_map_val (d : List (α × β)) (k : α) (f : β → β) :
    dget? (d.map fun kv => (kv.1, f kv.2)) k = (dget? d k).map f := by
  induction d with
  | nil => simp [dget?]
  | cons hd tl ih =>
      by_cases hk : hd.1 = k
      · simp [dget?, hk]
      · simp [dget?, hk, ih]

theorem eq_nil_of_dget?_none (d : List (α × β))
    (h : ∀ k, dget? d k = none) : d = [] := by
  cases d with
  | nil => rfl
  | cons hd tl =>
      have := h hd.1
      simp [dget?] at this

theorem dget?_eq_some_of_mem (d : List (α × β)) (kv : α × β)
    (hnd : (d.map Prod.fst).Nodup) (hm : kv ∈ d) : dget? d kv.1 = some kv.2 := by
  induction d with
  | nil => simp at hm
  | cons hd tl ih =>
      simp only [List.map_cons, List.nodup_cons] at hnd
      rcases List.mem_cons.mp hm with h | h
      · subst h; simp [dget?]
      · have hne : hd.1 ≠ kv.1 := by
          intro he
          exact hnd.1 (he ▸ List.mem_map_of_mem Prod.fst h)
        simp [dget?, hne, ih hnd.2 h]

theorem mem_of_dget?_eq_some (d : List (α × β)) (k : α) (v : β)
    (h : dget? d k = some v) : (k, v) ∈ d := by
  induction d with
  | nil => simp [dget?] at h
  | cons hd tl ih =>
      obtain ⟨a, b⟩ := hd
      by_cases hk : a = k
      · subst hk
        simp only [dget?, if_pos rfl] at h
        cases h
        exact List.mem_cons_self _ _
      · simp only [dget?, if_neg hk] at h
        exact List.mem_cons_of_mem _ (ih h)

end DictLemmas

/-! ## Recomputation lemmas -/

theorem bump_degree_spec {nodes : List (Identifier × Attrs)} {x : Identifier}
    {k : Nat} {n' : List (Identifier × Attrs)}
    (h : bump_degree nodes x k = .ok n') :
    (∀ v, (dget? n' v).isSome ↔ (dget? nodes v).isSome) ∧
    (∀ v, degOf n' v = if v = x then (degOf nodes x).map (· + (k : Int)) else degOf nodes v) ∧
    (degOf nodes x).isSome := by
  unfold bump_degree at h
  cases hx : dget? nodes x with
  | none => simp only [hx] at h; cases h
  | some a =>
      simp only [hx] at h
      cases hd : dget? a "degree" with
      | none => simp only [hd] at h; cases h
      | some w =>
          simp only [hd] at h
          cases w with
          | vint d =>
              cases h
              refine ⟨?_, ?_, ?_⟩
              · intro v
                by_cases hv : v = x
                · subst hv; simp [dget?_dset_self, hx]
                · rw [dget?_dset_ne _ _ _ _ hv]
              · intro v
                by_cases hv : v = x
                · subst hv
                  simp [degOf, dget?_dset_self, hx, degval, Option.bind, hd]
                · simp [degOf, dget?_dset_ne _ _ _ _ hv, if_neg hv]
              · simp [degOf, hx, degval, hd, Option.bind]
          | vnone => simp at h
          | vbool b => simp at h
          | vstr s => simp at h
          | vset s => simp at h

theorem bump_degree_error {nodes : List (Identifier × Attrs)} {x : Identifier}
    {k : Nat} {e : PyErr} (hgood : int_degrees nodes)
    (h : bump_degree nodes x k = .error e) :
    e = .keyError ∧ dget? nodes x = none := by
  unfold bump_degree at h
  cases hx : dget? nodes x with
  | none =>
      simp only [hx] at h
      cases h
      exact ⟨rfl, rfl⟩
  | some a =>
      simp only [hx] at h
      obtain ⟨d, hd⟩ := hgood x a hx
      simp only [hd] at h
      cases h

theorem bump_degree_int_degrees {nodes : List (Identifier × Attrs)} {x : Identifier}
    {k : Nat} {n' : List (Identifier × Attrs)} (hgood : int_degrees nodes)
    (h : bump_degree nodes x k = .ok n') : int_degrees n' := by
  unfold bump_degree at h
  cases hx : dget? nodes x with
  | none => simp only [hx] at h; cases h
  | some a =>
      simp only [hx] at h
      cases hd : dget? a "degree" with
      | none => simp only [hd] at h; cases h
      | some w =>
          simp only [hd] at h
          cases w with
          | vint d =>
              cases h
              intro v b hv
              by_cases hvx : v = x
              · subst hvx
                rw [dget?_dset_self] at hv
                cases hv
                exact ⟨d + k, dget?_dset_self _ _ _⟩
              · rw [dget?_dset_ne _ _ _ _ hvx] at hv
                exact hgood v b hv
          | vnone => simp at h
          | vbool b => simp at h
          | vstr s => simp at h
          | vset s => simp at h

theorem bump_degree_ok_of_present {nodes : List (Identifier × Attrs)}
    {x : Identifier} (k : Nat) (hgood : int_degrees nodes)
    (hx : (dget? nodes x).isSome) : ∃ n', bump_degree nodes x k = .ok n' := by
  cases hmem : dget? nodes x with
  | none => rw [hmem] at hx; cases hx
  | some a =>
      obtain ⟨d, hd⟩ := hgood x a hmem
      refine ⟨dset nodes x (dset a "degree" (.vint (d + k))), ?_⟩
      unfold bump_degree
      simp only [hmem, hd]

theorem calc_degree_loop_spec {es : List (Couple × Multiples)} :
    ∀ {nodes nodes' : List (Identifier × Attrs)},
    calc_degree_loop nodes es = .ok nodes' →
    (∀ v, (dget? nodes' v).isSome ↔ (dget? nodes v).isSome) ∧
    (∀ v d, degOf nodes v = some d → degOf nodes' v = some (d + degree_contrib v es)) := by
  induction es with
  | nil =>
      intro nodes nodes' h
      cases h
      exact ⟨fun _ => Iff.rfl, fun v d hd => by simpa [degree_contrib] using hd⟩
  | cons cm rest ih =>
      intro nodes nodes' h
      obtain ⟨⟨node_l, node_r⟩, multiples⟩ := cm
      unfold calc_degree_loop at h
      cases hb1 : bump_degree nodes node_l multiples.length with
      | error e => simp only [hb1] at h; cases h
      | ok n1 =>
          simp only [hb1] at h
          cases hb2 : bump_degree n1 node_r multiples.length with
          | error e => simp only [hb2] at h; cases h
          | ok n2 =>
              simp only [hb2] at h
              obtain ⟨hk1, hv1, _⟩ := bump_degree_spec hb1
              obtain ⟨hk2, hv2, _⟩ := bump_degree_spec hb2
              obtain ⟨hkr, hvr⟩ := ih h
              refine ⟨fun v => (hkr v).trans ((hk2 v).trans (hk1 v)), ?_⟩
              intro v d hd
              have e1 : degOf n1 v =
                  some (d + (if node_l = v then (multiples.length : Int) else 0)) := by
                by_cases hl : node_l = v
                · subst hl
                  rw [hv1 node_l, if_pos rfl, hd]
                  simp
                · rw [hv1 v, if_neg (Ne.symm hl), hd, if_neg hl]
                  simp
              have e2 : degOf n2 v =
                  some (d + (if node_l = v then (multiples.length : Int) else 0) +
                    (if node_r = v then (multiples.length : Int) else 0)) := by
                by_cases hr : node_r = v
                · subst hr
                  rw [hv2 node_r, if_pos rfl, e1]
                  simp
                · rw [hv2 v, if_neg (Ne.symm hr), e1, if_neg hr]
                  simp
              have e3 := hvr v _ e2
              rw [e3]
              simp only [degree_contrib]
              congr 1
              ring

theorem isSome_of_bind {α β : Type} {o : Option α} {f : α → Option β}
    (h : (o.bind f).isSome) : o.isSome := by
  cases o <;> simp_all

theorem bump_degree_length {nodes : List (Identifier × Attrs)} {x : Identifier}
    {k : Nat} {n' : List (Identifier × Attrs)}
    (h : bump_degree nodes x k = .ok n') : n'.length = nodes.length := by
  unfold bump_degree at h
  cases hx : dget? nodes x with
  | none => simp only [hx] at h; cases h
  | some a =>
      simp only [hx] at h
      cases hd : dget? a "degree" with
      | none => simp only [hd] at h; cases h
      | some w =>
          simp only [hd] at h
          cases w with
          | vint d =>
              cases h
              exact length_dset_present _ _ _ (by simp [hx])
          | vnone => simp at h
          | vbool b => simp at h
          | vstr s => simp at h
          | vset s => simp at h

theorem calc_degree_loop_length {es : List (Couple × Multiples)} :
    ∀ {nodes nodes' : List (Identifier × Attrs)},
    calc_degree_loop nodes es = .ok nodes' → nodes'.length = nodes.length := by
  induction es with
  | nil => intro nodes nodes' h; cases h; rfl
  | cons cm rest ih =>
      intro nodes nodes' h
      obtain ⟨⟨node_l, node_r⟩, multiples⟩ := cm
      unfold calc_degree_loop at h
      cases hb1 : bump_degree nodes node_l multiples.length with
      | error e => simp only [hb1] at h; cases h
      | ok n1 =>
          simp only [hb1] at h
          cases hb2 : bump_degree n1 node_r multiples.length with
          | error e => simp only [hb2] at h; cases h
          | ok n2 =>
              simp only [hb2] at h
              rw [ih h, bump_degree_length hb2, bump_degree_length hb1]

theorem calc_degree_loop_ok_of_present {es : List (Couple × Multiples)} :
    ∀ {nodes : List (Identifier × Attrs)}, int_degrees nodes →
    (∀ cm ∈ es, (dget? nodes cm.1.1).isSome ∧ (dget? nodes cm.1.2).isSome) →
    ∃ n', calc_degree_loop nodes es = .ok n' := by
  induction es with
  | nil => intro nodes _ _; exact ⟨nodes, rfl⟩
  | cons cm rest ih =>
      intro nodes hgood hall
      obtain ⟨⟨node_l, node_r⟩, multiples⟩ := cm
      obtain ⟨hl, hr⟩ := hall _ (List.mem_cons_self _ _)
      obtain ⟨n1, hb1⟩ := bump_degree_ok_of_present multiples.length hgood hl
      have hgood1 := bump_degree_int_degrees hgood hb1
      obtain ⟨hk1, _, _⟩ := bump_degree_spec hb1
      obtain ⟨n2, hb2⟩ := bump_degree_ok_of_present multiples.length hgood1 ((hk1 _).mpr hr)
      have hgood2 := bump_degree_int_degrees hgood1 hb2
      obtain ⟨hk2, _, _⟩ := bump_degree_spec hb2
      obtain ⟨n3, h3⟩ := ih hgood2 (fun cm hm => by
        obtain ⟨h1, h2⟩ := hall cm (List.mem_cons_of_mem _ hm)
        exact ⟨(hk2 _).mpr ((hk1 _).mpr h1), (hk2 _).mpr ((hk1 _).mpr h2)⟩)
      refine ⟨n3, ?_⟩
      unfold calc_degree_loop
      simp only [hb1, hb2]
      exact h3

theorem calc_degree_loop_ok_endpoints {es : List (Couple × Multiples)} :
    ∀ {nodes nodes' : List (Identifier × Attrs)},
    calc_degree_loop nodes es = .ok nodes' →
    ∀ cm ∈ es, (dget? nodes cm.1.1).isSome ∧ (dget? nodes cm.1.2).isSome := by
  induction es with
  | nil => intro nodes nodes' _ cm hm; simp at hm
  | cons cm0 rest ih =>
      intro nodes nodes' h cm hm
      obtain ⟨⟨node_l, node_r⟩, multiples⟩ := cm0
      unfold calc_degree_loop at h
      cases hb1 : bump_degree nodes node_l multiples.length with
      | error e => simp only [hb1] at h; cases h
      | ok n1 =>
          simp only [hb1] at h
          cases hb2 : bump_degree n1 node_r multiples.length with
          | error e => simp only [hb2] at h; cases h
          | ok n2 =>
              simp only [hb2] at h
              obtain ⟨hk1, _, hpl⟩ := bump_degree_spec hb1
              obtain ⟨hk2, _, hpr⟩ := bump_degree_spec hb2
              rcases List.mem_cons.mp hm with h0 | h0
              · subst h0
                constructor
                · simp only [degOf] at hpl
                  exact isSome_of_bind hpl
                · have := isSome_of_bind (by simpa [degOf] using hpr : ((dget? n1 node_r).bind degval).isSome)
                  exact (hk1 _).mp this
              · obtain ⟨h1, h2⟩ := ih h cm h0
                exact ⟨(hk1 _).mp ((hk2 _).mp h1), (hk1 _).mp ((hk2 _).mp h2)⟩

theorem calc_degree_loop_error_keyError {es : List (Couple × Multiples)} :
    ∀ {nodes : List (Identifier × Attrs)} {e : PyErr}, int_degrees nodes →
    calc_degree_loop nodes es = .error e → e = .keyError := by
  induction es with
  | nil => intro nodes e _ h; cases h
  | cons cm rest ih =>
      intro nodes e hgood h
      obtain ⟨⟨node_l, node_r⟩, multiples⟩ := cm
      unfold calc_degree_loop at h
      cases hb1 : bump_degree nodes node_l multiples.length with
      | error e1 =>
          simp only [hb1] at h
          cases h
          exact (bump_degree_error hgood hb1).1
      | ok n1 =>
          simp only [hb1] at h
          have hgood1 := bump_degree_int_degrees hgood hb1
          cases hb2 : bump_degree n1 node_r multiples.length with
          | error e2 =>
              simp only [hb2] at h
              cases h
              exact (bump_degree_error hgood1 hb2).1
          | ok n2 =>
              simp only [hb2] at h
              exact ih (bump_degree_int_degrees hgood1 hb2) h

theorem clear_degree_dget? (g : GraphSt) (v : Identifier) :
    dget? (clear_degree g).nodes v =
      (dget? g.nodes v).map fun a => dset a "degree" (.vint 0) :=
  dget?_map_val g.nodes v (fun a => dset a "degree" (.vint 0))

theorem clear_degree_int_degrees (g : GraphSt) : int_degrees (clear_degree g).nodes := by
  intro v a hv
  rw [clear_degree_dget?] at hv
  cases hg : dget? g.nodes v with
  | none => rw [hg] at hv; cases hv
  | some a0 =>
      rw [hg] at hv
      cases hv
      exact ⟨0, dget?_dset_self _ _ _⟩

theorem clear_degree_degOf (g : GraphSt) (v : Identifier)
    (h : (dget? g.nodes v).isSome) : degOf (clear_degree g).nodes v = some 0 := by
  cases hg : dget? g.nodes v with
  | none => rw [hg] at h; cases h
  | some a0 =>
      simp [degOf, clear_degree_dget?, hg, degval, dget?_dset_self, Option.bind]

/-- Success, failure and value characterization of `calc_degree`: it
returns normally exactly when every endpoint of every couple has a node
record, any failure is the generic `KeyError`, and on success it leaves
the edge store and the node key set unchanged, storing as each node's
degree the per-endpoint-position incidence sum. -/
theorem calc_degree_ok_spec {g g' : GraphSt} (h : calc_degree g = .ok g') :
    g'.edges = g.edges ∧
    (∀ v, (dget? g'.nodes v).isSome ↔ (dget? g.nodes v).isSome) ∧
    g'.nodes.length = g.nodes.length ∧
    (∀ v, (dget? g.nodes v).isSome → degOf g'.nodes v = some (degree_contrib v g.edges)) := by
  unfold calc_degree at h
  cases hlp : calc_degree_loop (clear_degree g).nodes (clear_degree g).edges with
  | error e => simp only [hlp] at h; cases h
  | ok nodes =>
      simp only [hlp] at h
      cases h
      obtain ⟨hk, hv⟩ := calc_degree_loop_spec hlp
      refine ⟨rfl, ?_, ?_, ?_⟩
      · intro v
        rw [hk v, clear_degree_dget?]
        cases dget? g.nodes v <;> simp
      · rw [calc_degree_loop_length hlp]
        simp [clear_degree]
      · intro v hsome
        have h0 := clear_degree_degOf g v hsome
        have := hv v 0 h0
        simpa using this

theorem calc_degree_ok_iff (g : GraphSt) :
    (∃ g', calc_degree g = .ok g') ↔ endpoints_present g := by
  constructor
  · rintro ⟨g', h⟩
    unfold calc_degree at h
    cases hlp : calc_degree_loop (clear_degree g).nodes (clear_degree g).edges with
    | error e => simp only [hlp] at h; cases h
    | ok nodes =>
        intro cm hm
        have := calc_degree_loop_ok_endpoints hlp cm hm
        constructor
        · have := this.1
          rw [clear_degree_dget?] at this
          cases hx : dget? g.nodes cm.1.1 <;> simp [hx] at this ⊢
        · have := this.2
          rw [clear_degree_dget?] at this
          cases hx : dget? g.nodes cm.1.2 <;> simp [hx] at this ⊢
  · intro hpre
    obtain ⟨n', hn'⟩ := calc_degree_loop_ok_of_present (clear_degree_int_degrees g)
      (fun cm hm => by
        obtain ⟨h1, h2⟩ := hpre cm hm
        constructor
        · rw [clear_degree_dget?]
          cases hx : dget? g.nodes cm.1.1
          · rw [hx] at h1; cases h1
          · simp
        · rw [clear_degree_dget?]
          cases hx : dget? g.nodes cm.1.2
          · rw [hx] at h2; cases h2
          · simp)
    refine ⟨{ clear_degree g with nodes := n' }, ?_⟩
    have hn2 : calc_degree_loop (clear_degree g).nodes (clear_degree g).edges = .ok n' := hn'
    unfold calc_degree
    simp only [hn2]

theorem calc_degree_error_keyError {g : GraphSt} {e : PyErr}
    (h : calc_degree g = .error e) : e = .keyError := by
  unfold calc_degree at h
  cases hlp : calc_degree_loop (clear_degree g).nodes (clear_degree g).edges with
  | error e1 =>
      simp only [hlp] at h
      cases h
      exact calc_degree_loop_error_keyError (clear_degree_int_degrees g) hlp
  | ok nodes => simp only [hlp] at h; cases h

theorem add_neighbor_spec {nodes : List (Identifier × Attrs)}
    {node_l node_r : Identifier} {n' : List (Identifier × Attrs)}
    (h : add_neighbor nodes node_l node_r = .ok n') :
    (∀ v, (dget? n' v).isSome ↔ (dget? nodes v).isSome) ∧
    n'.length = nodes.length ∧ (dget? nodes node_l).isSome := by
  unfold add_neighbor at h
  cases hx : dget? nodes node_l with
  | none => simp only [hx] at h; cases h
  | some a =>
      simp only [hx] at h
      cases hd : dget? a "neighbors" with
      | none => simp only [hd] at h; cases h
      | some w =>
          simp only [hd] at h
          cases w with
          | vset s =>
              cases h
              refine ⟨?_, ?_, by simp [hx]⟩
              · intro v
                by_cases hv : v = node_l
                · subst hv; simp [dget?_dset_self, hx]
                · rw [dget?_dset_ne _ _ _ _ hv]
              · exact length_dset_present _ _ _ (by simp [hx])
          | vnone => simp at h
          | vbool b => simp at h
          | vstr s => simp at h
          | vint d => simp at h

theorem add_neighbor_error {nodes : List (Identifier × Attrs)}
    {node_l node_r : Identifier} {e : PyErr} (hgood : set_neighbors nodes)
    (h : add_neighbor nodes node_l node_r = .error e) :
    e = .keyError ∧ dget? nodes node_l = none := by
  unfold add_neighbor at h
  cases hx : dget? nodes node_l with
  | none =>
      simp only [hx] at h
      cases h
      exact ⟨rfl, rfl⟩
  | some a =>
      simp only [hx] at h
      obtain ⟨s, hd⟩ := hgood node_l a hx
      simp only [hd] at h
      cases h

theorem add_neighbor_set_neighbors {nodes : List (Identifier × Attrs)}
    {node_l node_r : Identifier} {n' : List (Identifier × Attrs)}
    (hgood : set_neighbors nodes)
    (h : add_neighbor nodes node_l node_r = .ok n') : set_neighbors n' := by
  unfold add_neighbor at h
  cases hx : dget? nodes node_l with
  | none => simp only [hx] at h; cases h
  | some a =>
      simp only [hx] at h
      cases hd : dget? a "neighbors" with
      | none => simp only [hd] at h; cases h
      | some w =>
          simp only [hd] at h
          cases w with
          | vset s =>
              cases h
              intro v b hv
              by_cases hvx : v = node_l
              · subst hvx
                rw [dget?_dset_self] at hv
                cases hv
                exact ⟨_, dget?_dset_self _ _ _⟩
              · rw [dget?_dset_ne _ _ _ _ hvx] at hv
                exact hgood v b hv
          | vnone => simp at h
          | vbool b => simp at h
          | vstr s => simp at h
          | vint d => simp at h

theorem add_neighbor_ok_of_present {nodes : List (Identifier × Attrs)}
    {node_l : Identifier} (node_r : Identifier) (hgood : set_neighbors nodes)
    (hx : (dget? nodes node_l).isSome) :
    ∃ n', add_neighbor nodes node_l node_r = .ok n' := by
  cases hmem : dget? nodes node_l with
  | none => rw [hmem] at hx; cases hx
  | some a =>
      obtain ⟨s, hd⟩ := hgood node_l a hmem
      refine ⟨dset nodes node_l (dset a "neighbors" (.vset (pyset_add s node_r))), ?_⟩
      unfold add_neighbor
      simp only [hmem, hd]

theorem calc_neighbors_loop_keys {es : List (Couple × Multiples)} :
    ∀ {nodes nodes' : List (Identifier × Attrs)},
    calc_neighbors_loop nodes es = .ok nodes' →
    (∀ v, (dget? nodes' v).isSome ↔ (dget? nodes v).isSome) ∧
    nodes'.length = nodes.length := by
  induction es with
  | nil =>
      intro nodes nodes' h
      cases h
      exact ⟨fun _ => Iff.rfl, rfl⟩
  | cons cm rest ih =>
      intro nodes nodes' h
      obtain ⟨⟨node_l, node_r⟩, multiples⟩ := cm
      unfold calc_neighbors_loop at h
      cases hb : add_neighbor nodes node_l node_r with
      | error e => simp only [hb] at h; cases h
      | ok n1 =>
          simp only [hb] at h
          obtain ⟨hk1, hl1, _⟩ := add_neighbor_spec hb
          obtain ⟨hkr, hlr⟩ := ih h
          exact ⟨fun v => (hkr v).trans (hk1 v), hlr.trans hl1⟩

theorem calc_neighbors_loop_ok_of_present {es : List (Couple × Multiples)} :
    ∀ {nodes : List (Identifier × Attrs)}, set_neighbors nodes →
    (∀ cm ∈ es, (dget? nodes cm.1.1).isSome) →
    ∃ n', calc_neighbors_loop nodes es = .ok n' := by
  induction es with
  | nil => intro nodes _ _; exact ⟨nodes, rfl⟩
  | cons cm rest ih =>
      intro nodes hgood hall
      obtain ⟨⟨node_l, node_r⟩, multiples⟩ := cm
      obtain ⟨n1, hb⟩ := add_neighbor_ok_of_present node_r hgood
        (hall _ (List.mem_cons_self _ _))
      obtain ⟨hk1, _, _⟩ := add_neighbor_spec hb
      obtain ⟨n2, h2⟩ := ih (add_neighbor_set_neighbors hgood hb)
        (fun cm hm => (hk1 _).mpr (hall cm (List.mem_cons_of_mem _ hm)))
      refine ⟨n2, ?_⟩
      unfold calc_neighbors_loop
      simp only [hb]
      exact h2

theorem calc_neighbors_loop_error_keyError {es : List (Couple × Multiples)} :
    ∀ {nodes : List (Identifier × Attrs)} {e : PyErr}, set_neighbors nodes →
    calc_neighbors_loop nodes es = .error e → e = .keyError := by
  induction es with
  | nil => intro nodes e _ h; cases h
  | cons cm rest ih =>
      intro nodes e hgood h
      obtain ⟨⟨node_l, node_r⟩, multiples⟩ := cm
      unfold calc_neighbors_loop at h
      cases hb : add_neighbor nodes node_l node_r with
      | error e1 =>
          simp only [hb] at h
          cases h
          exact (add_neighbor_error hgood hb).1
      | ok n1 =>
          simp only [hb] at h
          exact ih (add_neighbor_set_neighbors hgood hb) h

theorem clear_neighbors_dget? (g : GraphSt) (v : Identifier) :
    dget? (clear_neighbors g).nodes v =
      (dget? g.nodes v).map fun a => dset a "neighbors" (.vset []) :=
  dget?_map_val g.nodes v (fun a => dset a "neighbors" (.vset []))

theorem clear_neighbors_set_neighbors (g : GraphSt) :
    set_neighbors (clear_neighbors g).nodes := by
  intro v a hv
  rw [clear_neighbors_dget?] at hv
  cases hg : dget? g.nodes v with
  | none => rw [hg] at hv; cases hv
  | some a0 =>
      rw [hg] at hv
      cases hv
      exact ⟨[], dget?_dset_self _ _ _⟩

/-- Source `calc_neighbors` on the directed variant: succeeds exactly when every
left endpoint has a node record, fails only with the generic `KeyError`,
and on success preserves the edge store, the node key set and the node
count. -/
theorem calc_neighbors_ok_spec {g g' : GraphSt} (h : calc_neighbors g = .ok g') :
    g'.edges = g.edges ∧
    (∀ v, (dget? g'.nodes v).isSome ↔ (dget? g.nodes v).isSome) ∧
    g'.nodes.length = g.nodes.length := by
  unfold calc_neighbors at h
  cases hlp : calc_neighbors_loop (clear_neighbors g).nodes (clear_neighbors g).edges with
  | error e => simp only [hlp] at h; cases h
  | ok nodes =>
      simp only [hlp] at h
      cases h
      obtain ⟨hk, hl⟩ := calc_neighbors_loop_keys hlp
      refine ⟨rfl, ?_, ?_⟩
      · intro v
        rw [hk v, clear_neighbors_dget?]
        cases dget? g.nodes v <;> simp
      · rw [hl]
        simp [clear_neighbors]

theorem calc_neighbors_ok_of_present {g : GraphSt}
    (hpre : ∀ cm ∈ g.edges, (dget? g.nodes cm.1.1).isSome) :
    ∃ g', calc_neighbors g = .ok g' := by
  obtain ⟨n', hn'⟩ := calc_neighbors_loop_ok_of_present (clear_neighbors_set_neighbors g)
    (fun cm hm => by
      have h1 := hpre cm hm
      rw [clear_neighbors_dget?]
      cases hx : dget? g.nodes cm.1.1
      · rw [hx] at h1; cases h1
      · simp)
  refine ⟨{ clear_neighbors g with nodes := n' }, ?_⟩
  have hn2 : calc_neighbors_loop (clear_neighbors g).nodes (clear_neighbors g).edges = .ok n' := hn'
  unfold calc_neighbors
  simp only [hn2]

theorem calc_neighbors_error_keyError {g : GraphSt} {e : PyErr}
    (h : calc_neighbors g = .error e) : e = .keyError := by
  unfold calc_neighbors at h
  cases hlp : calc_neighbors_loop (clear_neighbors g).nodes (clear_neighbors g).edges with
  | error e1 =>
      simp only [hlp] at h
      cases h
      exact calc_neighbors_loop_error_keyError (clear_neighbors_set_neighbors g) hlp
  | ok nodes => simp only [hlp] at h; cases h

/-- Source `recalc` (the `calc_degree(); calc_neighbors()` pair) preserves the edge
store, the node key set and the node count. -/
theorem recalc_ok_spec {g g' : GraphSt} (h : recalc g = .ok g') :
    g'.edges = g.edges ∧
    (∀ v, (dget? g'.nodes v).isSome ↔ (dget? g.nodes v).isSome) ∧
    g'.nodes.length = g.nodes.length := by
  unfold recalc at h
  cases hd : calc_degree g with
  | error e => simp only [hd] at h; cases h
  | ok g1 =>
      simp only [hd] at h
      obtain ⟨he1, hk1, hl1, _⟩ := calc_degree_ok_spec hd
      obtain ⟨he2, hk2, hl2⟩ := calc_neighbors_ok_spec h
      exact ⟨he2.trans he1, fun v => (hk2 v).trans (hk1 v), hl2.trans hl1⟩

theorem recalc_ok_iff (g : GraphSt) :
    (∃ g', recalc g = .ok g') ↔ endpoints_present g := by
  constructor
  · rintro ⟨g', h⟩
    unfold recalc at h
    cases hd : calc_degree g with
    | error e => simp only [hd] at h; cases h
    | ok g1 => exact (calc_degree_ok_iff g).mp ⟨g1, hd⟩
  · intro hpre
    obtain ⟨g1, hd⟩ := (calc_degree_ok_iff g).mpr hpre
    obtain ⟨he1, hk1, _, _⟩ := calc_degree_ok_spec hd
    obtain ⟨g2, hn⟩ := calc_neighbors_ok_of_present (g := g1) (fun cm hm => by
      rw [he1] at hm
      exact (hk1 _).mpr (hpre cm hm).1)
    refine ⟨g2, ?_⟩
    unfold recalc
    simp only [hd]
    exact hn

theorem recalc_error_keyError {g : GraphSt} {e : PyErr}
    (h : recalc g = .error e) : e = .keyError := by
  unfold recalc at h
  cases hd : calc_degree g with
  | error e1 =>
      simp only [hd] at h
      cases h
      exact calc_degree_error_keyError hd
  | ok g1 =>
      simp only [hd] at h
      exact calc_neighbors_error_keyError h

/-! ## Claim C4 -/

/-- C4: `add_node` on an existing identifier raises `NodeAlreadyExists` when
`replace=false` (before any mutation, so the store is unchanged); with
`replace=true` the stored record afterwards carries the previous `degree`
and `neighbors` values while every other attribute equals exactly the newly
supplied record (old ordinary attributes are overwritten, not merged), and
the call performs no degree/neighbor recomputation (edge store and all
other node records are untouched). -/
theorem C4_add_node_existing (g : GraphSt) (identifier : Identifier)
    (attributes old : Attrs) (hold : dget? g.nodes identifier = some old) :
    add_node g identifier false attributes = .error .nodeAlreadyExists ∧
    ∀ g', add_node g identifier true attributes = .ok g' →
      g'.edges = g.edges ∧
      (∀ v, v ≠ identifier → dget? g'.nodes v = dget? g.nodes v) ∧
      ∃ newrec, dget? g'.nodes identifier = some newrec ∧
        dget? newrec "degree" = some ((dget? old "degree").getD .vnone) ∧
        dget? newrec "neighbors" = some ((dget? old "neighbors").getD .vnone) ∧
        ∀ k, k ≠ "degree" → k ≠ "neighbors" → dget? newrec k = dget? attributes k := by
  constructor
  · unfold add_node
    simp only [hold]
    rfl
  · intro g' h
    unfold add_node at h
    simp only [hold, if_pos rfl] at h
    cases h
    refine ⟨rfl, ?_, ?_⟩
    · intro v hv
      exact dget?_dset_ne _ _ _ _ hv
    · refine ⟨_, dget?_dset_self _ _ _, ?_, dget?_dset_self _ _ _, ?_⟩
      · rw [dget?_dset_ne _ _ _ _ (by decide), dget?_dset_self]
      · intro k h1 h2
        rw [dget?_dset_ne _ _ _ _ h2, dget?_dset_ne _ _ _ _ h1]

/-- Witness for C4 at a concrete node with an old `degree` and an old
ordinary attribute that the replacement overwrites. -/
theorem C4_add_node_existing_witness :
    add_node ⟨[("n", [("degree", .vint 5), ("color", .vstr "red")])], []⟩ "n" false
      [("color", .vstr "blue")] = .error .nodeAlreadyExists ∧
    ∃ g' newrec,
      add_node ⟨[("n", [("degree", .vint 5), ("color", .vstr "red")])], []⟩ "n" true
        [("color", .vstr "blue")] = .ok g' ∧
      dget? g'.nodes "n" = some newrec ∧
      dget? newrec "degree" = some (.vint 5) ∧
      dget? newrec "neighbors" = some .vnone ∧
      dget? newrec "color" = some (.vstr "blue") := by
  have h := C4_add_node_existing ⟨[("n", [("degree", .vint 5), ("color", .vstr "red")])], []⟩
    "n" [("color", .vstr "blue")] [("degree", .vint 5), ("color", .vstr "red")] (by rfl)
  refine ⟨h.1, ?_⟩
  obtain ⟨-, -, newrec, h3, h4, h5, h6⟩ := h.2 _ rfl
  exact ⟨_, newrec, rfl, h3, h4.trans (by decide), h5.trans (by decide),
    h6 "color" (by decide) (by decide)⟩

/-! ## Claim C8 -/

theorem keys_map_val {α β : Type} (d : List (α × β)) (f : β → β) :
    (d.map fun kv => (kv.1, f kv.2)).map Prod.fst = d.map Prod.fst := by
  induction d with
  | nil => rfl
  | cons hd tl ih => simp [ih]

/-- C8: `clear_edges` empties the edge store and forces `degree = 0` and
`neighbors = {}` on every remaining node record (all other attributes and
the node key list untouched), while `clear_nodes` empties the node store
only and leaves the edge store unchanged; neither clear operation touches
the other store beyond that. -/
theorem C8_clear_nodes_and_clear_edges (g : GraphSt) :
    (clear_nodes g).nodes = [] ∧
    (clear_nodes g).edges = g.edges ∧
    (clear_edges g).edges = [] ∧
    (clear_edges g).nodes.map Prod.fst = g.nodes.map Prod.fst ∧
    ∀ v a, dget? g.nodes v = some a →
      ∃ a', dget? (clear_edges g).nodes v = some a' ∧
        dget? a' "degree" = some (.vint 0) ∧
        dget? a' "neighbors" = some (.vset []) ∧
        ∀ k, k ≠ "degree" → k ≠ "neighbors" → dget? a' k = dget? a k := by
  refine ⟨rfl, rfl, rfl, ?_, ?_⟩
  · simp [clear_edges, clear_neighbors, clear_degree, List.map_map, Function.comp]
  · intro v a ha
    have h1 : dget? (clear_edges g).nodes v =
        some (dset (dset a "degree" (.vint 0)) "neighbors" (.vset [])) := by
      show dget? (clear_neighbors (clear_degree { g with edges := [] })).nodes v = _
      rw [clear_neighbors_dget?, clear_degree_dget?]
      show (Option.map _ (Option.map _ (dget? g.nodes v))) = _
      rw [ha]
      rfl
    refine ⟨_, h1, ?_, dget?_dset_self _ _ _, ?_⟩
    · rw [dget?_dset_ne _ _ _ _ (by decide), dget?_dset_self]
    · intro k hk1 hk2
      rw [dget?_dset_ne _ _ _ _ hk2, dget?_dset_ne _ _ _ _ hk1]

/-- Witness for C8 on a one-node, one-edge graph. -/
theorem C8_clear_nodes_and_clear_edges_witness :
    (clear_nodes ⟨[("a", [("degree", .vint 2), ("tag", .vstr "t")])],
        [(("a", "a"), [("e", [])])]⟩).nodes = [] ∧
    (clear_nodes ⟨[("a", [("degree", .vint 2), ("tag", .vstr "t")])],
        [(("a", "a"), [("e", [])])]⟩).edges = [(("a", "a"), [("e", [])])] ∧
    (clear_edges ⟨[("a", [("degree", .vint 2), ("tag", .vstr "t")])],
        [(("a", "a"), [("e", [])])]⟩).edges = [] ∧
    ∃ a', dget? (clear_edges ⟨[("a", [("degree", .vint 2), ("tag", .vstr "t")])],
        [(("a", "a"), [("e", [])])]⟩).nodes "a" = some a' ∧
      dget? a' "degree" = some (.vint 0) ∧
      dget? a' "neighbors" = some (.vset []) ∧
      dget? a' "tag" = some (.vstr "t") := by
  have h := C8_clear_nodes_and_clear_edges
    ⟨[("a", [("degree", .vint 2), ("tag", .vstr "t")])], [(("a", "a"), [("e", [])])]⟩
  obtain ⟨a', h1, h2, h3, h4⟩ := h.2.2.2.2 "a" [("degree", .vint 2), ("tag", .vstr "t")] (by rfl)
  exact ⟨h.1, h.2.1, h.2.2.1, a', h1, h2, h3,
    (h4 "tag" (by decide) (by decide)).trans (by decide)⟩

/-! ## Claim C9 -/

/-- C9: deleting the last edge identifier of a couple with
`del_edge(node_l, node_r, identifier)` leaves the couple present, mapped to
an empty inner mapping, so it still counts toward `len(edges)` and
`describe()`'s `number_of_edges`; only `del_edge` with the identifier
omitted removes the couple key itself. -/
theorem C9_del_edge_keeps_empty_couple (g : GraphSt)
    (node_l node_r eid : Identifier) (eattrs : Attrs) (rb : Bool) (g' : GraphSt)
    (hnd : (g.edges.map Prod.fst).Nodup)
    (hm : dget? g.edges (node_l, node_r) = some [(eid, eattrs)])
    (h : del_edge rep_directed g node_l node_r (some eid) rb = .ok g') :
    dget? g'.edges (node_l, node_r) = some [] ∧
    g'.edges.length = g.edges.length ∧
    (∀ g2 info, describe g' = .ok (g2, info) → info.number_of_edges = g.edges.length) ∧
    (∀ g3, del_edge rep_directed g node_l node_r none rb = .ok g3 →
      dget? g3.edges (node_l, node_r) = none) := by
  unfold del_edge rep_directed at h
  simp only [hm] at h
  have hmm : dget? [(eid, eattrs)] eid = some eattrs := by simp [dget?]
  simp only [hmm] at h
  have hddel : ddel [(eid, eattrs)] eid = [] := by simp [ddel]
  rw [hddel] at h
  have hge : g'.edges = dset g.edges (node_l, node_r) [] := by
    cases rb with
    | false => cases h; rfl
    | true => exact ((recalc_ok_spec h).1)
  have hlen : g'.edges.length = g.edges.length := by
    rw [hge]
    exact length_dset_present _ _ _ (by simp [hm])
  refine ⟨?_, hlen, ?_, ?_⟩
  · rw [hge, dget?_dset_self]
  · intro g2 info hdesc
    unfold describe at hdesc
    cases hr : recalc g' with
    | error e => simp only [hr] at hdesc; cases hdesc
    | ok gr =>
        simp only [hr] at hdesc
        have hinfo : info.number_of_edges = gr.edges.length := by
          cases hdesc
          rfl
        rw [hinfo, (recalc_ok_spec hr).1, hlen]
  · intro g3 h3
    unfold del_edge rep_directed at h3
    simp only [hm] at h3
    have hge3 : g3.edges = ddel g.edges (node_l, node_r) := by
      cases rb with
      | false => cases h3; rfl
      | true => exact ((recalc_ok_spec h3).1)
    rw [hge3]
    exact dget?_ddel_self _ _ hnd

/-- Witness for C9 on a two-couple graph whose first couple holds one edge. -/
theorem C9_del_edge_keeps_empty_couple_witness :
    ∃ g', del_edge rep_directed
        ⟨[("a", []), ("b", [])], [(("a", "b"), [("e1", [])]), (("b", "a"), [("e2", [])])]⟩
        "a" "b" (some "e1") false = .ok g' ∧
      dget? g'.edges ("a", "b") = some [] ∧
      g'.edges.length = 2 ∧
      (∀ g3, del_edge rep_directed
          ⟨[("a", []), ("b", [])], [(("a", "b"), [("e1", [])]), (("b", "a"), [("e2", [])])]⟩
          "a" "b" none false = .ok g3 → dget? g3.edges ("a", "b") = none) := by
  obtain ⟨h1, h2, h3, h4⟩ := C9_del_edge_keeps_empty_couple
    ⟨[("a", []), ("b", [])], [(("a", "b"), [("e1", [])]), (("b", "a"), [("e2", [])])]⟩
    "a" "b" "e1" [] false _ (by decide) (by rfl) rfl
  exact ⟨_, rfl, h1, h2, h4⟩

/-! ## Claim C10 -/

/-- C10: `calc_degree` (and `describe`, which invokes the recomputation)
returns normally exactly when every endpoint identifier of every couple in
the edge store has a node record; `calc_neighbors` also succeeds whenever
that precondition holds; when recomputation fails the error is the generic
missing-key `KeyError`, never a named library condition; and `clear_nodes`
on a graph with edges always breaks the precondition. -/
theorem C10_recalculation_requires_endpoints (g : GraphSt) :
    ((∃ g', calc_degree g = .ok g') ↔ endpoints_present g) ∧
    (endpoints_present g → (∃ g', calc_neighbors g = .ok g') ∧ ∃ x, describe g = .ok x) ∧
    ((∃ x, describe g = .ok x) → endpoints_present g) ∧
    (∀ e, calc_degree g = .error e → e = .keyError) ∧
    (∀ e, calc_neighbors g = .error e → e = .keyError) ∧
    (∀ e, describe g = .error e → e = .keyError) ∧
    (g.edges ≠ [] → ¬ endpoints_present (clear_nodes g)) := by
  refine ⟨calc_degree_ok_iff g, ?_, ?_, fun e he => calc_degree_error_keyError he,
    fun e he => calc_neighbors_error_keyError he, ?_, ?_⟩
  · intro hpre
    refine ⟨calc_neighbors_ok_of_present (fun cm hm => (hpre cm hm).1), ?_⟩
    obtain ⟨g1, hr⟩ := (recalc_ok_iff g).mpr hpre
    refine ⟨(g1,
      { type_name := "Directed Graph"
        number_of_nodes := g1.nodes.length
        number_of_edges := g1.edges.length
        multi_graph := is_multi g1
        pseudo_graph := is_pseudo g1
        complete_graph := is_complete g1 }), ?_⟩
    unfold describe
    simp only [hr]
  · rintro ⟨x, hx⟩
    unfold describe at hx
    cases hr : recalc g with
    | error e => simp only [hr] at hx; cases hx
    | ok g1 => exact (recalc_ok_iff g).mp ⟨g1, hr⟩
  · intro e he
    unfold describe at he
    cases hr : recalc g with
    | error e1 =>
        simp only [hr] at he
        cases he
        exact recalc_error_keyError hr
    | ok g1 => simp only [hr] at he; cases he
  · intro hne hpre
    cases hes : g.edges with
    | nil => exact hne hes
    | cons cm rest =>
        have := hpre cm (by show cm ∈ g.edges; rw [hes]; exact List.mem_cons_self _ _)
        simp [dget?, clear_nodes] at this

/-- Witness for C10: a well-formed two-node graph satisfies the
precondition and `describe` returns; after `clear_nodes` the precondition
is broken and `calc_degree` fails with the generic `KeyError`. -/
theorem C10_recalculation_requires_endpoints_witness :
    endpoints_present ⟨[("a", []), ("b", [])], [(("a", "b"), [("e", [])])]⟩ ∧
    (∃ x, describe ⟨[("a", []), ("b", [])], [(("a", "b"), [("e", [])])]⟩ = .ok x) ∧
    ¬ endpoints_present (clear_nodes ⟨[("a", []), ("b", [])], [(("a", "b"), [("e", [])])]⟩) ∧
    calc_degree (clear_nodes ⟨[("a", []), ("b", [])], [(("a", "b"), [("e", [])])]⟩) =
      .error .keyError := by
  have h := C10_recalculation_requires_endpoints
    ⟨[("a", []), ("b", [])], [(("a", "b"), [("e", [])])]⟩
  have hpre : endpoints_present ⟨[("a", []), ("b", [])], [(("a", "b"), [("e", [])])]⟩ := by
    intro cm hm
    simp only [List.mem_singleton] at hm
    subst hm
    exact ⟨by decide, by decide⟩
  exact ⟨hpre, (h.2.1 hpre).2, h.2.2.2.2.2.2 (by decide), by rfl⟩

/-! ## Claim C1 -/

theorem degree_contrib_eq_out_add_in (v : Identifier) (es : List (Couple × Multiples)) :
    degree_contrib v es = out_degree v es + in_degree v es := by
  induction es with
  | nil => simp [degree_contrib, out_degree, in_degree]
  | cons cm rest ih =>
      obtain ⟨⟨node_l, node_r⟩, multiples⟩ := cm
      simp only [degree_contrib, out_degree, in_degree, ih]
      ring

/-- C1: immediately after a `calc_degree` recomputation pass, the stored
degree of every node `v` equals the sum, over every couple of the edge
store and every endpoint position `v` occupies in it, of that couple's
parallel-edge count — equivalently, in the directed graph, in-degree plus
out-degree combined (so three parallel edges to one neighbor contribute
three, and a loop couple contributes twice its count). -/
theorem C1_degree_is_incidence_sum (g g' : GraphSt)
    (h : calc_degree g = .ok g') (v : Identifier)
    (hv : (dget? g.nodes v).isSome) :
    degOf g'.nodes v = some (degree_contrib v g.edges) ∧
    degree_contrib v g.edges = out_degree v g.edges + in_degree v g.edges :=
  ⟨(calc_degree_ok_spec h).2.2.2 v hv, degree_contrib_eq_out_add_in v g.edges⟩

/-- Witness for C1 on the spec's concrete scenario: nodes X, Y, Z with two
parallel edges X→Y and one edge Y→Z; Y's recomputed degree is 3
(in-degree 2 plus out-degree 1). -/
theorem C1_degree_is_incidence_sum_witness :
    ∃ g', calc_degree ⟨[("X", []), ("Y", []), ("Z", [])],
        [(("X", "Y"), [("e1", []), ("e2", [])]), (("Y", "Z"), [("e3", [])])]⟩ = .ok g' ∧
      degOf g'.nodes "Y" =
        some (degree_contrib "Y"
          [(("X", "Y"), [("e1", []), ("e2", [])]), (("Y", "Z"), [("e3", [])])]) ∧
      degree_contrib "Y"
        [(("X", "Y"), [("e1", []), ("e2", [])]), (("Y", "Z"), [("e3", [])])] = 3 ∧
      out_degree "Y"
        [(("X", "Y"), [("e1", []), ("e2", [])]), (("Y", "Z"), [("e3", [])])] = 1 ∧
      in_degree "Y"
        [(("X", "Y"), [("e1", []), ("e2", [])]), (("Y", "Z"), [("e3", [])])] = 2 := by
  obtain ⟨h1, h2⟩ := C1_degree_is_incidence_sum
    ⟨[("X", []), ("Y", []), ("Z", [])],
      [(("X", "Y"), [("e1", []), ("e2", [])]), (("Y", "Z"), [("e3", [])])]⟩
    _ rfl "Y" (by decide)
  exact ⟨_, rfl, h1, by decide, by decide, by decide⟩

/-! ## Bulk-load lemmas (claims C3 and C5) -/

theorem add_edge_norecalc_error {rep : Rep} {g : GraphSt}
    {node_l node_r identifier : Identifier} {replace addm : Bool}
    {attributes : Attrs} {e : PyErr}
    (h : add_edge rep g node_l node_r identifier replace addm false attributes = .error e) :
    e = .edgeAlreadyExists := by
  unfold add_edge at h
  by_cases hdup : (match dget? g.edges (rep (node_l, node_r)) with
      | some m => (dget? m identifier).isSome
      | none => false) && !replace
  · rw [if_pos hdup] at h
    cases h
    rfl
  · rw [if_neg hdup] at h
    simp only [Bool.false_eq_true, if_false] at h
    cases h

theorem load_multiples_error_shape {rep : Rep} {node_l node_r : Identifier}
    {m : List (Identifier × Attrs)} :
    ∀ {g : GraphSt} {e : PyErr}, (load_multiples rep g node_l node_r m).2 = some e →
    e = .duplicationInEdgeIdentifiers node_l node_r := by
  induction m with
  | nil => intro g e h; simp [load_multiples] at h
  | cons ea rest ih =>
      intro g e h
      obtain ⟨eid, eattrs⟩ := ea
      unfold load_multiples at h
      cases hae : add_edge rep g node_l node_r eid false true false eattrs with
      | error e1 =>
          have he1 := add_edge_norecalc_error hae
          subst he1
          simp only [hae] at h
          cases h
          rfl
      | ok g1 =>
          simp only [hae] at h
          exact ih h

theorem load_edges_loop_error_dup {rep : Rep} {input : List (Couple × Multiples)} :
    ∀ {g : GraphSt} {k : Nat} {a b : Identifier},
    (load_edges_loop rep g k input).2 = some (.duplicationInEdgeIdentifiers a b) →
    (a, b) ∈ input.map Prod.fst := by
  induction input with
  | nil => intro g k a b h; simp [load_edges_loop] at h
  | cons cm rest ih =>
      intro g k a b h
      obtain ⟨⟨node_l, node_r⟩, multiples⟩ := cm
      unfold load_edges_loop at h
      by_cases hlen : multiples.length = 0
      · rw [if_pos hlen] at h
        cases hae : add_edge rep g node_l node_r (generate_identifier k) false true false [] with
        | error e1 =>
            simp only [hae] at h
            cases h
            cases add_edge_norecalc_error hae
        | ok g1 =>
            simp only [hae] at h
            exact List.mem_cons_of_mem _ (ih h)
      · rw [if_neg hlen] at h
        cases hlm : load_multiples rep g node_l node_r multiples with
        | mk g1 oe =>
            cases oe with
            | none =>
                simp only [hlm] at h
                exact List.mem_cons_of_mem _ (ih h)
            | some e1 =>
                simp only [hlm] at h
                have he : e1 = PyErr.duplicationInEdgeIdentifiers a b := by simpa using h
                subst he
                have hshape := load_multiples_error_shape
                  (show (load_multiples rep g node_l node_r multiples).2 =
                    some (PyErr.duplicationInEdgeIdentifiers a b) by rw [hlm])
                injection hshape with h1 h2
                subst h1
                subst h2
                simp

theorem edges_validation_dict_empty_multiples (rep : Rep) (g : GraphSt)
    (input : List (Couple × Multiples)) (h : ∃ cm ∈ input, cm.2 = []) :
    edges_validation_dict rep g input = (g, some .wrongLengthOfMultipleEdges) := by
  obtain ⟨cm, hm, he⟩ := h
  unfold edges_validation_dict
  have hall : input.all (fun cm => cm.2.length > 0) = false := by
    rw [List.all_eq_false]
    exact ⟨cm, hm, by simp [he]⟩
  rw [hall]
  simp

/-! ## Claim C3 -/

/-- Counterexample to C3 as stated: bulk-loading the edge mapping
`{("a","b"): {}}` does not insert an autogenerated-identifier edge for the
couple; the pre-scan `check_multiples_len` raises
`WrongLengthOfMultipleEdgesException` and the edge store stays empty. -/
theorem C3_counterexample_empty_inner_mapping :
    edges_validation_dict rep_directed ⟨[], []⟩ [(("a", "b"), [])] =
      (⟨[], []⟩, some .wrongLengthOfMultipleEdges) ∧
    dget? (edges_validation_dict rep_directed ⟨[], []⟩ [(("a", "b"), [])]).1.edges
      ("a", "b") = none := by
  constructor
  · rfl
  · rfl

/-- C3 as amended: when bulk edge input is a mapping and some couple's
inner mapping is empty, the whole load fails during the pre-scan with
`WrongLengthOfMultipleEdgesException`, leaving the graph unchanged — the
branch that would insert one autogenerated-identifier edge for such a
couple is unreachable. -/
theorem C3_empty_inner_mapping_rejected (rep : Rep) (g : GraphSt)
    (input : List (Couple × Multiples)) (h : ∃ cm ∈ input, cm.2 = []) :
    edges_validation_dict rep g input = (g, some .wrongLengthOfMultipleEdges) :=
  edges_validation_dict_empty_multiples rep g input h

/-- Witness for the amended C3 at the counterexample's input. -/
theorem C3_empty_inner_mapping_rejected_witness :
    edges_validation_dict rep_directed ⟨[], []⟩ [(("a", "b"), [])] =
      (⟨[], []⟩, some .wrongLengthOfMultipleEdges) :=
  C3_empty_inner_mapping_rejected rep_directed ⟨[], []⟩ [(("a", "b"), [])]
    ⟨(("a", "b"), []), List.mem_singleton.mpr rfl, rfl⟩

/-! ## Claim C5 -/

/-- C5: during bulk edge load from a mapping, a duplicate (couple,
edge-identifier) insertion is reported as
`DuplicationInEdgeIdentifiersException` naming the two endpoints of the
offending input couple; the pre-scan shape check aborts the load before
any insertion with the graph unchanged; and a duplication failure can
leave the graph partially populated (shown on the spec-modelled undirected
canonicalization, where `("a","b")` and `("b","a")` collide: the first
edge stays inserted and the error names the second couple's endpoints). -/
theorem C5_bulk_load_failure_modes :
    (∀ (rep : Rep) (g : GraphSt) (input : List (Couple × Multiples)),
      (∃ cm ∈ input, cm.2 = []) →
      edges_validation_dict rep g input = (g, some .wrongLengthOfMultipleEdges)) ∧
    (∀ (rep : Rep) (g : GraphSt) (input : List (Couple × Multiples)) (a b : Identifier),
      (edges_validation_dict rep g input).2 = some (.duplicationInEdgeIdentifiers a b) →
      (a, b) ∈ input.map Prod.fst) ∧
    edges_validation_dict rep_undirected ⟨[], []⟩
        [(("a", "b"), [("e1", [])]), (("b", "a"), [("e1", [])])] =
      (⟨[("a", []), ("b", [])], [(("a", "b"), [("e1", [])])]⟩,
        some (.duplicationInEdgeIdentifiers "b" "a")) := by
  refine ⟨edges_validation_dict_empty_multiples, ?_, by rfl⟩
  intro rep g input a b h
  unfold edges_validation_dict at h
  by_cases hall : input.all (fun cm => cm.2.length > 0) = true
  · rw [if_pos hall] at h
    exact load_edges_loop_error_dup h
  · rw [if_neg hall] at h
    simp at h

/-- Witness for C5: the pre-scan abort and the duplication report applied
at concrete inputs. -/
theorem C5_bulk_load_failure_modes_witness :
    edges_validation_dict rep_directed ⟨[], []⟩ [(("x", "y"), [])] =
      (⟨[], []⟩, some .wrongLengthOfMultipleEdges) ∧
    (("b", "a") ∈
      (([(("a", "b"), [("e1", [])]), (("b", "a"), [("e1", [])])] :
        List (Couple × Multiples)).map Prod.fst)) := by
  have h := C5_bulk_load_failure_modes
  exact ⟨h.1 rep_directed ⟨[], []⟩ [(("x", "y"), [])]
      ⟨(("x", "y"), []), List.mem_singleton.mpr rfl, rfl⟩,
    h.2.1 rep_undirected ⟨[], []⟩
      [(("a", "b"), [("e1", [])]), (("b", "a"), [("e1", [])])] "b" "a" (by rfl)⟩

/-! ## Claim C7 -/

theorem dget?_append_single {α β : Type} [DecidableEq α]
    (d : List (α × β)) (k : α) (v : β) (h : dget? d k = none) :
    dget? (d ++ [(k, v)]) k = some v := by
  induction d with
  | nil => simp [dget?]
  | cons hd tl ih =>
      by_cases hk : hd.1 = k
      · simp [dget?, hk] at h
      · simp only [dget?, hk] at h
        simp [dget?, hk, ih h]

theorem ddel_cons_ne {α β : Type} [DecidableEq α]
    (hd : α × β) (tl : List (α × β)) (k : α) (h : hd.1 ≠ k) :
    ddel (hd :: tl) k = hd :: ddel tl k := by
  obtain ⟨a, b⟩ := hd
  simp only at h
  simp [ddel, h]

theorem foldl_ddel_cons {α β : Type} [DecidableEq α] :
    ∀ (ks : List α) (hd : α × β) (tl : List (α × β)),
    (∀ k ∈ ks, k ≠ hd.1) →
    ks.foldl (fun acc c => ddel acc c) (hd :: tl) =
      hd :: ks.foldl (fun acc c => ddel acc c) tl := by
  intro ks
  induction ks with
  | nil => intro hd tl _; rfl
  | cons k rest ih =>
      intro hd tl hne
      simp only [List.foldl_cons]
      rw [ddel_cons_ne hd tl k (Ne.symm (hne k (List.mem_cons_self _ _)))]
      exact ih hd (ddel tl k) (fun k2 h2 => hne k2 (List.mem_cons_of_mem _ h2))

theorem keys_of_filter_subset {α β : Type} (p : α × β → Bool) (l : List (α × β)) :
    ∀ k ∈ (l.filter p).map Prod.fst, k ∈ l.map Prod.fst := by
  intro k hk
  obtain ⟨kv, hkv, he⟩ := List.mem_map.mp hk
  exact List.mem_map.mpr ⟨kv, List.mem_of_mem_filter hkv, he⟩

theorem foldl_ddel_filter {α β : Type} [DecidableEq α] :
    ∀ (es : List (α × β)) (p : α × β → Bool), (es.map Prod.fst).Nodup →
    ((es.filter p).map Prod.fst).foldl (fun acc c => ddel acc c) es =
      es.filter fun kv => !(p kv) := by
  intro es
  induction es with
  | nil => intro p _; rfl
  | cons hd tl ih =>
      intro p hnd
      simp only [List.map_cons, List.nodup_cons] at hnd
      by_cases hp : p hd
      · rw [List.filter_cons_of_pos hp, List.map_cons, List.foldl_cons]
        have hdd : ddel (hd :: tl) hd.1 = tl := by
          obtain ⟨a, b⟩ := hd
          simp [ddel]
        rw [hdd, ih p hnd.2, List.filter_cons_of_neg (by simp [hp])]
      · rw [List.filter_cons_of_neg (by simp [hp])]
        rw [foldl_ddel_cons _ hd tl
          (fun k hk hke => hnd.1 (hke ▸ keys_of_filter_subset p tl k hk))]
        rw [ih p hnd.2, List.filter_cons_of_pos (by simp [hp])]

theorem del_edges_list_nodes {rep : Rep} :
    ∀ (cs : List Couple) {g g' : GraphSt},
    del_edges_list rep g cs = .ok g' → g'.nodes = g.nodes := by
  intro cs
  induction cs with
  | nil =>
      intro g g' h
      cases h
      rfl
  | cons c rest ih =>
      intro g g' h
      unfold del_edges_list at h
      cases hde : del_edge rep g c.1 c.2 none false with
      | error e => simp only [hde] at h; cases h
      | ok g1 =>
          simp only [hde] at h
          unfold del_edge at hde
          cases hm : dget? g.edges (rep (c.1, c.2)) with
          | none => simp only [hm] at hde; cases hde
          | some m =>
              simp only [hm] at hde
              simp only [Bool.false_eq_true, if_false] at hde
              cases hde
              exact (ih h).trans rfl

theorem del_edges_list_spec {rep : Rep} :
    ∀ (cs : List Couple) (g g' : GraphSt),
    (∀ c ∈ cs, rep c = c) →
    del_edges_list rep g cs = .ok g' →
    g'.nodes = g.nodes ∧
    g'.edges = cs.foldl (fun acc c => ddel acc c) g.edges := by
  intro cs
  induction cs with
  | nil =>
      intro g g' _ h
      cases h
      exact ⟨rfl, rfl⟩
  | cons c rest ih =>
      intro g g' hrep h
      unfold del_edges_list at h
      cases hde : del_edge rep g c.1 c.2 none false with
      | error e => simp only [hde] at h; cases h
      | ok g1 =>
          simp only [hde] at h
          unfold del_edge at hde
          have hc : rep (c.1, c.2) = c := hrep c (List.mem_cons_self _ _)
          rw [hc] at hde
          cases hm : dget? g.edges c with
          | none => simp only [hm] at hde; cases hde
          | some m =>
              simp only [hm] at hde
              simp only [Bool.false_eq_true, if_false] at hde
              cases hde
              obtain ⟨hn, he⟩ := ih _ g' (fun c2 h2 => hrep c2 (List.mem_cons_of_mem _ h2)) h
              exact ⟨hn, by rw [he, List.foldl_cons]⟩

/-- C7: `del_node` deletes every couple with the identifier in either
endpoint position (and only those) and then the node record itself, so
afterwards the identifier is absent from the node store and no remaining
couple touches it; and `add_node` of a fresh identifier followed by
`del_node` of the same identifier, with no edges added in between, restores
the node count. -/
theorem C7_del_node_cascade :
    (∀ (rep : Rep) (g : GraphSt) (v : Identifier) (rb : Bool) (g' : GraphSt),
      (g.nodes.map Prod.fst).Nodup →
      (g.edges.map Prod.fst).Nodup →
      (∀ cm ∈ g.edges, rep cm.1 = cm.1) →
      del_node rep g v rb = .ok g' →
      dget? g'.nodes v = none ∧
      g'.edges = g.edges.filter (fun cm => !(cm.1.1 == v || cm.1.2 == v)) ∧
      ∀ cm ∈ g'.edges, cm.1.1 ≠ v ∧ cm.1.2 ≠ v) ∧
    (∀ (rep : Rep) (g : GraphSt) (x : Identifier) (attributes : Attrs) (rb : Bool)
      (g1 g2 : GraphSt),
      dget? g.nodes x = none →
      add_node g x false attributes = .ok g1 →
      del_node rep g1 x rb = .ok g2 →
      g2.nodes.length = g.nodes.length) := by
  constructor
  · intro rep g v rb g' hndn hnde hrep h
    unfold del_node at h
    cases hdl : del_edges_list rep g
        ((g.edges.filter fun cm => cm.1.1 == v || cm.1.2 == v).map Prod.fst) with
    | error e => simp only [hdl] at h; cases h
    | ok g1 =>
        simp only [hdl] at h
        obtain ⟨hn1, he1⟩ := del_edges_list_spec _ g g1
          (fun c hc => by
            obtain ⟨cm, hcm, hceq⟩ := List.mem_map.mp hc
            exact hceq ▸ hrep cm (List.mem_of_mem_filter hcm)) hdl
        rw [foldl_ddel_filter g.edges _ hnde] at he1
        cases hx : dget? g1.nodes v with
        | none => simp only [hx] at h; cases h
        | some a =>
            simp only [hx] at h
            have habsent : dget? (ddel g1.nodes v) v = none := by
              rw [hn1]
              exact dget?_ddel_self _ _ hndn
            have hfin : dget? g'.nodes v = none ∧ g'.edges = g1.edges := by
              cases rb with
              | false =>
                  cases h
                  exact ⟨habsent, rfl⟩
              | true =>
                  obtain ⟨he, hk, _⟩ := recalc_ok_spec h
                  refine ⟨?_, he⟩
                  rw [← Option.not_isSome_iff_eq_none]
                  intro hs
                  have := (hk v).mp hs
                  rw [show (⟨ddel g1.nodes v, g1.edges⟩ : GraphSt).nodes = ddel g1.nodes v
                    from rfl, habsent] at this
                  cases this
            obtain ⟨hgn, hge⟩ := hfin
            refine ⟨hgn, by rw [hge, he1], ?_⟩
            intro cm hcm
            rw [hge, he1] at hcm
            have hcond := List.of_mem_filter hcm
            simp only [Bool.not_eq_eq_eq_not, Bool.not_true, Bool.or_eq_false_iff] at hcond
            constructor
            · intro hq
              have h1 := hcond.1
              simp [hq] at h1
            · intro hq
              have h2 := hcond.2
              simp [hq] at h2
  · intro rep g x attributes rb g1 g2 hx h1 h2
    unfold add_node at h1
    simp only [hx] at h1
    cases h1
    unfold del_node at h2
    cases hdl : del_edges_list rep ⟨dset g.nodes x attributes, g.edges⟩
        (List.map Prod.fst
          (List.filter (fun cm => cm.1.1 == x || cm.1.2 == x) g.edges)) with
    | error e => simp only [hdl] at h2; cases h2
    | ok g1' =>
        simp only [hdl] at h2
        have hn1 : g1'.nodes = dset g.nodes x attributes := del_edges_list_nodes _ hdl
        cases hxx : dget? g1'.nodes x with
        | none => simp only [hxx] at h2; cases h2
        | some a =>
            simp only [hxx] at h2
            have hnodes : ddel g1'.nodes x = g.nodes := by
              rw [hn1, dset_of_absent _ _ _ hx]
              exact ddel_append_single _ _ _ hx
            cases rb with
            | false =>
                cases h2
                show (ddel g1'.nodes x).length = g.nodes.length
                rw [hnodes]
            | true =>
                obtain ⟨-, -, hl⟩ := recalc_ok_spec h2
                rw [hl]
                show (ddel g1'.nodes x).length = g.nodes.length
                rw [hnodes]

/-- Witness for C7: deleting node "b" from a three-node graph removes both
couples touching "b" and keeps the loop couple on "c"; and adding then
deleting a fresh node "z" restores the node count. -/
theorem C7_del_node_cascade_witness :
    (∃ g', del_node rep_directed ⟨[("a", []), ("b", []), ("c", [])],
        [(("a", "b"), [("e1", [])]), (("b", "c"), [("e2", [])]), (("c", "c"), [("e3", [])])]⟩
        "b" false = .ok g' ∧
      dget? g'.nodes "b" = none ∧
      g'.edges = [(("c", "c"), [("e3", [])])]) ∧
    (∃ g1 g2, add_node ⟨[("a", [])], []⟩ "z" false [("t", .vint 1)] = .ok g1 ∧
      del_node rep_directed g1 "z" false = .ok g2 ∧ g2.nodes.length = 1) := by
  have h := C7_del_node_cascade
  constructor
  · obtain ⟨h1, h2, -⟩ := h.1 rep_directed ⟨[("a", []), ("b", []), ("c", [])],
      [(("a", "b"), [("e1", [])]), (("b", "c"), [("e2", [])]), (("c", "c"), [("e3", [])])]⟩
      "b" false _ (by decide) (by decide) (fun cm _ => rfl) rfl
    exact ⟨_, rfl, h1, h2.trans (by decide)⟩
  · refine ⟨_, _, rfl, rfl, ?_⟩
    exact h.2 rep_directed ⟨[("a", [])], []⟩ "z" [("t", .vint 1)] false _ _ rfl rfl rfl

/-! ## Claim C6 -/

/-- C6 fails on the code: `get_subgraph` calls `add_node` with the keyword
argument `recalculate_calculated_attributes=False`, but `add_node` has no
such parameter, so the flag is swallowed by `**attributes` and stored as an
ordinary node attribute.  Evaluating the code on a two-node graph shows the
copied node record gains the spurious key
`recalculate_calculated_attributes`, which the original record does not
have — the attribute record is not copied exactly. -/
theorem C6_subgraph_copies_spurious_attribute :
    ∃ sub arec,
      get_subgraph rep_directed
        ⟨[("a", [("degree", .vint 1), ("neighbors", .vset ["b"])]),
          ("b", [("degree", .vint 1), ("neighbors", .vset [])])],
         [(("a", "b"), [("e1", [("w", .vint 7)])])]⟩ ["a", "b"] true = .ok sub ∧
      dget? sub.nodes "a" = some arec ∧
      dget? arec "recalculate_calculated_attributes" = some (.vbool false) ∧
      dget? [("degree", PyVal.vint 1), ("neighbors", PyVal.vset ["b"])]
        "recalculate_calculated_attributes" = none := by
  exact ⟨_, _, rfl, rfl, rfl, rfl⟩

/-! ## Subgraph lemmas (claim C2) -/

theorem foldl_dset_append {α β : Type} [DecidableEq α] :
    ∀ (m acc : List (α × β)),
    (∀ k ∈ m.map Prod.fst, k ∉ acc.map Prod.fst) →
    (m.map Prod.fst).Nodup →
    m.foldl (fun a ea => dset a ea.1 ea.2) acc = acc ++ m := by
  intro m
  induction m with
  | nil => intro acc _ _; simp
  | cons ea rest ih =>
      intro acc hdisj hnd
      simp only [List.map_cons, List.nodup_cons] at hnd
      have hea : dget? acc ea.1 = none := by
        rw [← Option.not_isSome_iff_eq_none, dget?_isSome_iff_mem]
        exact hdisj ea.1 (by simp)
      simp only [List.foldl_cons]
      rw [dset_of_absent acc ea.1 ea.2 hea]
      rw [ih (acc ++ [(ea.1, ea.2)]) ?hdisj hnd.2]
      · simp
      case hdisj =>
        intro k hk
        simp only [List.map_append, List.mem_append]
        rintro (hmem | hmem)
        · exact hdisj k (by simp [hk]) hmem
        · simp at hmem
          exact hnd.1 (hmem ▸ hk)

theorem add_edge_inner_ok {rep : Rep} {sub : GraphSt} {node_l node_r eid : Identifier}
    {ea : Attrs} {s1 : GraphSt}
    (h : add_edge rep sub node_l node_r eid false false false ea = .ok s1) :
    s1.nodes = sub.nodes ∧
    s1.edges = dset sub.edges (rep (node_l, node_r))
      (dset ((dget? sub.edges (rep (node_l, node_r))).getD []) eid ea) := by
  unfold add_edge at h
  by_cases hdup : (match dget? sub.edges (rep (node_l, node_r)) with
      | some m => (dget? m eid).isSome
      | none => false) = true
  · rw [if_pos (by simp [hdup])] at h
    cases h
  · rw [if_neg (by simp [hdup])] at h
    simp only [Bool.false_eq_true, if_false] at h
    cases h
    exact ⟨rfl, rfl⟩

theorem subgraph_add_node_edges {g s : GraphSt} {x : Identifier} {s' : GraphSt}
    (h : subgraph_add_node g s x = .ok s') : s'.edges = s.edges := by
  unfold subgraph_add_node at h
  cases hx : dget? g.nodes x with
  | none => simp only [hx] at h; cases h
  | some a =>
      simp only [hx] at h
      by_cases hg : ((dget? a "recalculate_calculated_attributes").isSome
          || (dget? a "identifier").isSome || (dget? a "replace").isSome) = true
      · rw [if_pos hg] at h
        cases h
      · rw [if_neg hg] at h
        cases hadd : add_node s x false
            (("recalculate_calculated_attributes", PyVal.vbool false) :: a) with
        | ok s1 =>
            simp only [hadd] at h
            cases h
            unfold add_node at hadd
            cases hmem : dget? s.nodes x with
            | some old => simp only [hmem] at hadd; simp at hadd
            | none =>
                simp only [hmem] at hadd
                cases hadd
                rfl
        | error e =>
            simp only [hadd] at h
            cases e with
            | nodeAlreadyExists => cases h; rfl
            | keyError => cases h
            | typeError => cases h
            | edgeAlreadyExists => cases h
            | wrongLengthOfMultipleEdges => cases h
            | duplicationInEdgeIdentifiers a b => cases h

theorem subgraph_add_node_nodes {g s : GraphSt} {x : Identifier} {s' : GraphSt}
    (h : subgraph_add_node g s x = .ok s') :
    (∀ v, (dget? s'.nodes v).isSome ↔ ((dget? s.nodes v).isSome ∨ v = x)) ∧
    (dget? g.nodes x).isSome := by
  unfold subgraph_add_node at h
  cases hx : dget? g.nodes x with
  | none => simp only [hx] at h; cases h
  | some a =>
      simp only [hx] at h
      refine ⟨?_, by simp⟩
      by_cases hg : ((dget? a "recalculate_calculated_attributes").isSome
          || (dget? a "identifier").isSome || (dget? a "replace").isSome) = true
      · rw [if_pos hg] at h
        cases h
      · rw [if_neg hg] at h
        cases hadd : add_node s x false
            (("recalculate_calculated_attributes", PyVal.vbool false) :: a) with
        | ok s1 =>
            simp only [hadd] at h
            cases h
            unfold add_node at hadd
            cases hmem : dget? s.nodes x with
            | some old => simp only [hmem] at hadd; simp at hadd
            | none =>
                simp only [hmem] at hadd
                cases hadd
                intro v
                show (dget? (dset s.nodes x _) v).isSome = true ↔ _
                rw [dget?_dset_isSome]
                tauto
        | error e =>
            simp only [hadd] at h
            cases e with
            | nodeAlreadyExists =>
                cases h
                unfold add_node at hadd
                cases hmem : dget? s.nodes x with
                | none => simp only [hmem] at hadd; cases hadd
                | some old =>
                    intro v
                    constructor
                    · exact fun hv => Or.inl hv
                    · rintro (hv | hv)
                      · exact hv
                      · subst hv
                        simp [hmem]
            | keyError => cases h
            | typeError => cases h
            | edgeAlreadyExists => cases h
            | wrongLengthOfMultipleEdges => cases h
            | duplicationInEdgeIdentifiers a b => cases h

theorem subgraph_inner_edges {rep : Rep} {g : GraphSt} {node_l node_r : Identifier}
    (hrep : rep (node_l, node_r) = (node_l, node_r)) :
    ∀ (m : List (Identifier × Attrs)) {sub s' : GraphSt},
    subgraph_inner rep g node_l node_r sub m = .ok s' →
    (∀ c, c ≠ (node_l, node_r) → dget? s'.edges c = dget? sub.edges c) ∧
    (m = [] → s' = sub) ∧
    (m ≠ [] → dget? s'.edges (node_l, node_r) =
      some (m.foldl (fun a ea => dset a ea.1 ea.2)
        ((dget? sub.edges (node_l, node_r)).getD []))) := by
  intro m
  induction m with
  | nil =>
      intro sub s' h
      cases h
      exact ⟨fun c _ => rfl, fun _ => rfl, fun hne => absurd rfl hne⟩
  | cons ea rest ih =>
      intro sub s' h
      unfold subgraph_inner at h
      cases hae : add_edge rep sub node_l node_r ea.1 false false false ea.2 with
      | error e => simp only [hae] at h; cases h
      | ok s1 =>
          simp only [hae] at h
          obtain ⟨hn1, he1⟩ := add_edge_inner_ok hae
          rw [hrep] at he1
          cases han1 : subgraph_add_node g s1 node_l with
          | error e => simp only [han1] at h; cases h
          | ok s2 =>
              simp only [han1] at h
              cases han2 : subgraph_add_node g s2 node_r with
              | error e => simp only [han2] at h; cases h
              | ok s3 =>
                  simp only [han2] at h
                  have he3 : s3.edges = s1.edges :=
                    (subgraph_add_node_edges han2).trans (subgraph_add_node_edges han1)
                  obtain ⟨ih1, ih2, ih3⟩ := ih h
                  have hcur : dget? s3.edges (node_l, node_r) =
                      some (dset ((dget? sub.edges (node_l, node_r)).getD []) ea.1 ea.2) := by
                    rw [he3, he1, dget?_dset_self]
                  refine ⟨?_, fun hc => absurd hc (List.cons_ne_nil _ _), ?_⟩
                  · intro c hc
                    rw [ih1 c hc, he3, he1, dget?_dset_ne _ _ _ _ hc]
                  · intro _
                    simp only [List.foldl_cons]
                    by_cases hrest : rest = []
                    · subst hrest
                      have hs' : s' = s3 := ih2 rfl
                      subst hs'
                      rw [hcur]
                      rfl
                    · rw [ih3 hrest, hcur]
                      rfl

theorem subgraph_inner_nodes {rep : Rep} {g : GraphSt} {node_l node_r : Identifier} :
    ∀ (m : List (Identifier × Attrs)) {sub s' : GraphSt},
    subgraph_inner rep g node_l node_r sub m = .ok s' →
    ∀ v, (dget? s'.nodes v).isSome ↔
      ((dget? sub.nodes v).isSome ∨ (m ≠ [] ∧ (v = node_l ∨ v = node_r))) := by
  intro m
  induction m with
  | nil =>
      intro sub s' h v
      cases h
      simp
  | cons ea rest ih =>
      intro sub s' h v
      unfold subgraph_inner at h
      cases hae : add_edge rep sub node_l node_r ea.1 false false false ea.2 with
      | error e => simp only [hae] at h; cases h
      | ok s1 =>
          simp only [hae] at h
          have hn1 : s1.nodes = sub.nodes := (add_edge_inner_ok hae).1
          cases han1 : subgraph_add_node g s1 node_l with
          | error e => simp only [han1] at h; cases h
          | ok s2 =>
              simp only [han1] at h
              cases han2 : subgraph_add_node g s2 node_r with
              | error e => simp only [han2] at h; cases h
              | ok s3 =>
                  simp only [han2] at h
                  have h2 := (subgraph_add_node_nodes han1).1
                  have h3 := (subgraph_add_node_nodes han2).1
                  have hiter := ih h v
                  rw [hiter, h3 v, h2 v, hn1]
                  constructor
                  · rintro (((hs | hv) | hv) | ⟨-, hv⟩)
                    · exact Or.inl hs
                    · exact Or.inr ⟨List.cons_ne_nil _ _, Or.inl hv⟩
                    · exact Or.inr ⟨List.cons_ne_nil _ _, Or.inr hv⟩
                    · exact Or.inr ⟨List.cons_ne_nil _ _, hv⟩
                  · rintro (hs | ⟨-, (hv | hv)⟩)
                    · exact Or.inl (Or.inl (Or.inl hs))
                    · exact Or.inl (Or.inl (Or.inr hv))
                    · exact Or.inl (Or.inr hv)

theorem subgraph_outer_spec {rep : Rep} {g : GraphSt} {sel : List Identifier} {fm : Bool} :
    ∀ (es : List (Couple × Multiples)) {sub sub' : GraphSt},
    (es.map Prod.fst).Nodup →
    (∀ cm ∈ es, (cm.2.map Prod.fst).Nodup) →
    (∀ cm ∈ es, rep cm.1 = cm.1) →
    (∀ cm ∈ es, dget? sub.edges cm.1 = none) →
    subgraph_outer rep g sel fm sub es = .ok sub' →
    (∀ c m, dget? es c = some m → m ≠ [] → subgraph_condition g sel fm c.1 c.2 = true →
      dget? sub'.edges c = some m) ∧
    (∀ c m, dget? es c = some m →
      (m = [] ∨ subgraph_condition g sel fm c.1 c.2 = false) →
      dget? sub'.edges c = dget? sub.edges c) ∧
    (∀ c, dget? es c = none → dget? sub'.edges c = dget? sub.edges c) ∧
    (∀ v, (dget? sub'.nodes v).isSome ↔
      ((dget? sub.nodes v).isSome ∨ ∃ c m, dget? es c = some m ∧ m ≠ [] ∧
        subgraph_condition g sel fm c.1 c.2 = true ∧ (v = c.1 ∨ v = c.2))) := by
  intro es
  induction es with
  | nil =>
      intro sub sub' _ _ _ _ h
      cases h
      refine ⟨?_, ?_, fun c _ => rfl, ?_⟩
      · intro c m hc
        simp [dget?] at hc
      · intro c m hc
        simp [dget?] at hc
      · intro v
        simp [dget?]
  | cons cm rest ih =>
      intro sub sub' hnd hInner hrep hfresh h
      obtain ⟨⟨node_l, node_r⟩, m⟩ := cm
      simp only [List.map_cons, List.nodup_cons] at hnd
      have hget_head : dget? ((((node_l, node_r), m)) :: rest) ((node_l, node_r) : Couple) =
          some m := by simp [dget?]
      have hget_ne : ∀ c : Couple, c ≠ (node_l, node_r) →
          dget? ((((node_l, node_r), m)) :: rest) c = dget? rest c := by
        intro c hc
        have : ((node_l, node_r) : Couple) ≠ c := Ne.symm hc
        simp [dget?, this]
      have hnone_rest : dget? rest ((node_l, node_r) : Couple) = none := by
        rw [← Option.not_isSome_iff_eq_none, dget?_isSome_iff_mem]
        exact hnd.1
      unfold subgraph_outer at h
      cases hcond : subgraph_condition g sel fm node_l node_r with
      | false =>
          rw [hcond] at h
          simp only [Bool.false_eq_true, if_false] at h
          obtain ⟨ih1, ih2, ih3, ih4⟩ := ih hnd.2
            (fun cm2 h2 => hInner cm2 (List.mem_cons_of_mem _ h2))
            (fun cm2 h2 => hrep cm2 (List.mem_cons_of_mem _ h2))
            (fun cm2 h2 => hfresh cm2 (List.mem_cons_of_mem _ h2)) h
          refine ⟨?_, ?_, ?_, ?_⟩
          · intro c m2 hc hne hcondc
            by_cases hceq : c = ((node_l, node_r) : Couple)
            · subst hceq
              rw [hcondc] at hcond
              cases hcond
            · rw [hget_ne c hceq] at hc
              exact ih1 c m2 hc hne hcondc
          · intro c m2 hc hdis
            by_cases hceq : c = ((node_l, node_r) : Couple)
            · subst hceq
              exact ih3 _ hnone_rest
            · rw [hget_ne c hceq] at hc
              exact ih2 c m2 hc hdis
          · intro c hc
            by_cases hceq : c = ((node_l, node_r) : Couple)
            · subst hceq
              rw [hget_head] at hc
              cases hc
            · rw [hget_ne c hceq] at hc
              exact ih3 c hc
          · intro v
            rw [ih4 v]
            constructor
            · rintro (hs | ⟨c, m2, hc, hne, hcondc, hv⟩)
              · exact Or.inl hs
              · have hceq : c ≠ ((node_l, node_r) : Couple) := by
                  intro he
                  subst he
                  rw [hnone_rest] at hc
                  cases hc
                exact Or.inr ⟨c, m2, (hget_ne c hceq) ▸ hc, hne, hcondc, hv⟩
            · rintro (hs | ⟨c, m2, hc, hne, hcondc, hv⟩)
              · exact Or.inl hs
              · by_cases hceq : c = ((node_l, node_r) : Couple)
                · subst hceq
                  rw [hget_head] at hc
                  cases hc
                  rw [hcondc] at hcond
                  cases hcond
                · rw [hget_ne c hceq] at hc
                  exact Or.inr ⟨c, m2, hc, hne, hcondc, hv⟩
      | true =>
          rw [hcond] at h
          simp only [if_true] at h
          cases hin : subgraph_inner rep g node_l node_r sub m with
          | error e => simp only [hin] at h; cases h
          | ok s1 =>
              simp only [hin] at h
              have hrep0 : rep (node_l, node_r) = (node_l, node_r) :=
                hrep _ (List.mem_cons_self _ _)
              obtain ⟨i1, i2, i3⟩ := subgraph_inner_edges hrep0 m hin
              have inodes := subgraph_inner_nodes m hin
              have hfresh0 : dget? sub.edges ((node_l, node_r) : Couple) = none :=
                hfresh _ (List.mem_cons_self _ _)
              have hstore : m ≠ [] →
                  dget? s1.edges ((node_l, node_r) : Couple) = some m := by
                intro hne
                rw [i3 hne, hfresh0]
                rw [show (none : Option Multiples).getD [] = [] from rfl]
                rw [foldl_dset_append m [] (by simp)
                  (hInner _ (List.mem_cons_self _ _))]
                simp
              have hpres : ∀ c : Couple, c ≠ (node_l, node_r) →
                  dget? s1.edges c = dget? sub.edges c := i1
              obtain ⟨ih1, ih2, ih3, ih4⟩ := ih hnd.2
                (fun cm2 h2 => hInner cm2 (List.mem_cons_of_mem _ h2))
                (fun cm2 h2 => hrep cm2 (List.mem_cons_of_mem _ h2))
                (fun cm2 h2 => by
                  have hne2 : cm2.1 ≠ ((node_l, node_r) : Couple) := by
                    intro he
                    exact hnd.1 (he ▸ List.mem_map_of_mem Prod.fst h2)
                  rw [hpres cm2.1 hne2]
                  exact hfresh cm2 (List.mem_cons_of_mem _ h2)) h
              refine ⟨?_, ?_, ?_, ?_⟩
              · intro c m2 hc hne hcondc
                by_cases hceq : c = ((node_l, node_r) : Couple)
                · subst hceq
                  rw [hget_head] at hc
                  cases hc
                  rw [ih3 _ hnone_rest]
                  exact hstore hne
                · rw [hget_ne c hceq] at hc
                  exact ih1 c m2 hc hne hcondc
              · intro c m2 hc hdis
                by_cases hceq : c = ((node_l, node_r) : Couple)
                · subst hceq
                  rw [hget_head] at hc
                  cases hc
                  rcases hdis with hdis | hdis
                  · subst hdis
                    have hs1 : s1 = sub := i2 rfl
                    rw [ih3 _ hnone_rest, hs1]
                  · rw [hdis] at hcond
                    cases hcond
                · rw [hget_ne c hceq] at hc
                  rw [ih2 c m2 hc hdis]
                  exact hpres c hceq
              · intro c hc
                by_cases hceq : c = ((node_l, node_r) : Couple)
                · subst hceq
                  rw [hget_head] at hc
                  cases hc
                · rw [hget_ne c hceq] at hc
                  rw [ih3 c hc]
                  exact hpres c hceq
              · intro v
                rw [ih4 v, inodes v]
                constructor
                · rintro ((hs | ⟨hne, hv⟩) | ⟨c, m2, hc, hne, hcondc, hv⟩)
                  · exact Or.inl hs
                  · exact Or.inr ⟨(node_l, node_r), m, hget_head, hne, hcond, hv⟩
                  · have hceq : c ≠ ((node_l, node_r) : Couple) := by
                      intro he
                      subst he
                      rw [hnone_rest] at hc
                      cases hc
                    exact Or.inr ⟨c, m2, (hget_ne c hceq) ▸ hc, hne, hcondc, hv⟩
                · rintro (hs | ⟨c, m2, hc, hne, hcondc, hv⟩)
                  · exact Or.inl (Or.inl hs)
                  · by_cases hceq : c = ((node_l, node_r) : Couple)
                    · subst hceq
                      rw [hget_head] at hc
                      cases hc
                      exact Or.inl (Or.inr ⟨hne, hv⟩)
                    · rw [hget_ne c hceq] at hc
                      exact Or.inr ⟨c, m2, hc, hne, hcondc, hv⟩

/-! ## Claim C2 -/

/-- Counterexample to C2 as stated: a couple whose inner multi-edge mapping
is empty (reachable via `del_edge` with an identifier) has both endpoints
in the selection — the claimed retention iff would keep it — yet
`get_subgraph` does not carry it (nor its endpoints) into the result. -/
theorem C2_counterexample_empty_multiples_couple :
    ∃ sub, get_subgraph rep_directed ⟨[("a", []), ("b", [])], [(("a", "b"), [])]⟩
        ["a", "b"] true = .ok sub ∧
      subgraph_condition ⟨[("a", []), ("b", [])], [(("a", "b"), [])]⟩
        ["a", "b"] true "a" "b" = true ∧
      dget? (⟨[("a", []), ("b", [])], [(("a", "b"), [])]⟩ : GraphSt).edges
        (("a", "b") : Couple) = some [] ∧
      dget? sub.edges (("a", "b") : Couple) = none ∧
      dget? sub.nodes "a" = none := by
  exact ⟨_, rfl, rfl, rfl, rfl, rfl⟩

/-- C2 as amended: `get_subgraph` retains a couple (with exactly its
parallel-edge mapping) iff the couple's inner mapping is non-empty and the
endpoint condition holds — both endpoints selected under `fullmatch=true`,
at least one under `fullmatch=false`; a couple with an empty inner mapping
is never carried over.  A node appears in the result iff some retained
couple touches it, so over a selection with no qualifying couples the
result has no nodes and no edges. -/
theorem C2_subgraph_retention (rep : Rep) (g : GraphSt) (sel : List Identifier)
    (fm : Bool) (sub : GraphSt)
    (hnde : (g.edges.map Prod.fst).Nodup)
    (hInner : ∀ cm ∈ g.edges, (cm.2.map Prod.fst).Nodup)
    (hrep : ∀ cm ∈ g.edges, rep cm.1 = cm.1)
    (h : get_subgraph rep g sel fm = .ok sub) :
    (∀ c : Couple, (dget? sub.edges c).isSome ↔
      (∃ m, dget? g.edges c = some m ∧ m ≠ [] ∧
        subgraph_condition g sel fm c.1 c.2 = true)) ∧
    (∀ c m, dget? g.edges c = some m → m ≠ [] →
      subgraph_condition g sel fm c.1 c.2 = true → dget? sub.edges c = some m) ∧
    (∀ c m, dget? sub.edges c = some m → dget? g.edges c = some m) ∧
    (∀ v, (dget? sub.nodes v).isSome ↔
      (∃ c m, dget? g.edges c = some m ∧ m ≠ [] ∧
        subgraph_condition g sel fm c.1 c.2 = true ∧ (v = c.1 ∨ v = c.2))) ∧
    ((∀ cm ∈ g.edges, cm.2 ≠ [] →
        subgraph_condition g sel fm cm.1.1 cm.1.2 = false) →
      sub.nodes = [] ∧ sub.edges = []) := by
  unfold get_subgraph at h
  cases houter : subgraph_outer rep g sel fm ⟨[], []⟩ g.edges with
  | error e => simp only [houter] at h; cases h
  | ok sub0 =>
      simp only [houter] at h
      have hfresh0 : ∀ cm ∈ g.edges, dget? (⟨[], []⟩ : GraphSt).edges cm.1 = none :=
        fun cm _ => rfl
      obtain ⟨o1, o2, o3, o4⟩ := subgraph_outer_spec g.edges hnde hInner hrep
        hfresh0 houter
      obtain ⟨hre, hrk, -⟩ := recalc_ok_spec h
      have hedge : ∀ c : Couple, dget? sub.edges c = dget? sub0.edges c :=
        fun c => by rw [hre]
      have hchar : ∀ c : Couple, dget? sub0.edges c =
          (match dget? g.edges c with
          | some m => if m ≠ [] ∧ subgraph_condition g sel fm c.1 c.2 = true
              then some m else none
          | none => none) := by
        intro c
        cases hg : dget? g.edges c with
        | none => exact o3 c hg
        | some m =>
            by_cases hne : m = []
            · rw [o2 c m hg (Or.inl hne)]
              simp [dget?, hne]
            · by_cases hcond : subgraph_condition g sel fm c.1 c.2 = true
              · rw [o1 c m hg hne hcond]
                simp [hne, hcond]
              · rw [o2 c m hg (Or.inr (by
                  cases hb : subgraph_condition g sel fm c.1 c.2
                  · rfl
                  · exact absurd hb hcond))]
                simp [dget?, hne, hcond]
      refine ⟨?_, ?_, ?_, ?_, ?_⟩
      · intro c
        rw [hedge c, hchar c]
        cases hg : dget? g.edges c with
        | none =>
            simp
        | some m =>
            by_cases hne : m = []
            · simp [hne]
            · by_cases hcond : subgraph_condition g sel fm c.1 c.2 = true
              · simp [hne, hcond]
              · simp [hne, hcond]
      · intro c m hg hne hcond
        rw [hedge c, hchar c]
        simp only [hg]
        simp [hne, hcond]
      · intro c m hs
        rw [hedge c, hchar c] at hs
        cases hg : dget? g.edges c with
        | none => simp only [hg] at hs; cases hs
        | some m2 =>
            simp only [hg] at hs
            by_cases hif : m2 ≠ [] ∧ subgraph_condition g sel fm c.1 c.2 = true
            · rw [if_pos hif] at hs
              exact hs
            · rw [if_neg hif] at hs
              cases hs
      · intro v
        rw [hrk v, o4 v]
        simp [dget?]
      · intro hexcl
        have hnodes : ∀ v, dget? sub.nodes v = none := by
          intro v
          rw [← Option.not_isSome_iff_eq_none, hrk v, o4 v]
          rintro (hs | ⟨c, m, hc, hne, hcond, -⟩)
          · simp [dget?] at hs
          · have := hexcl (c, m) (mem_of_dget?_eq_some _ _ _ hc) hne
            rw [this] at hcond
            cases hcond
        have hedges : ∀ c : Couple, dget? sub.edges c = none := by
          intro c
          rw [hedge c, hchar c]
          cases hg : dget? g.edges c with
          | none => rfl
          | some m =>
              by_cases hne : m = []
              · simp [hne]
              · have := hexcl (c, m) (mem_of_dget?_eq_some _ _ _ hg) hne
                simp [hne, this]
        exact ⟨eq_nil_of_dget?_none _ hnodes, eq_nil_of_dget?_none _ hedges⟩

/-- Witness for the amended C2: on a three-node graph with one qualifying
couple, `get_subgraph` keeps that couple with exactly its parallel-edge
mapping and its endpoints; over a selection matching nothing the result is
the empty graph. -/
theorem C2_subgraph_retention_witness :
    (∃ sub, get_subgraph rep_directed
        ⟨[("a", []), ("b", []), ("c", [])],
         [(("a", "b"), [("e1", [("w", .vint 1)])]), (("b", "c"), [("e2", [])])]⟩
        ["a", "b"] true = .ok sub ∧
      dget? sub.edges (("a", "b") : Couple) = some [("e1", [("w", .vint 1)])] ∧
      (dget? sub.nodes "a").isSome = true) ∧
    (∃ sub2, get_subgraph rep_directed
        ⟨[("a", []), ("b", []), ("c", [])],
         [(("a", "b"), [("e1", [("w", .vint 1)])]), (("b", "c"), [("e2", [])])]⟩
        ["z"] true = .ok sub2 ∧
      sub2.nodes = [] ∧ sub2.edges = []) := by
  constructor
  · obtain ⟨c1, c2, c3, c4, c5⟩ := C2_subgraph_retention rep_directed
      ⟨[("a", []), ("b", []), ("c", [])],
       [(("a", "b"), [("e1", [("w", .vint 1)])]), (("b", "c"), [("e2", [])])]⟩
      ["a", "b"] true _ (by decide) (by decide) (fun cm _ => rfl) rfl
    refine ⟨_, rfl, ?_, ?_⟩
    · exact c2 ("a", "b") [("e1", [("w", .vint 1)])] rfl (by decide) (by decide)
    · exact (c4 "a").mpr ⟨("a", "b"), [("e1", [("w", .vint 1)])], rfl,
        by decide, by decide, Or.inl rfl⟩
  · obtain ⟨-, -, -, -, c5⟩ := C2_subgraph_retention rep_directed
      ⟨[("a", []), ("b", []), ("c", [])],
       [(("a", "b"), [("e1", [("w", .vint 1)])]), (("b", "c"), [("e2", [])])]⟩
      ["z"] true _ (by decide) (by decide) (fun cm _ => rfl) rfl
    obtain ⟨hn, he⟩ := c5 (by decide)
    exact ⟨_, rfl, hn, he⟩

end ConnectionS
